import Mathlib

/-!
Verification development for the RepoSwarm repository-analysis plugin.

The TypeScript sources are shallowly embedded:
strings are lists of characters, JavaScript numbers are rationals,
fallible external calls are environment parameters, and the in-place
mutation of the orchestrator's job record is explicit state passing.
JavaScript Array.prototype.sort (stable) is modelled by a stable
insertion sort; the theorems below rely only on behaviour shared by
every stable comparison sort.
-/

set_option maxRecDepth 10000

attribute [local semireducible] Rat.mul Rat.add Rat.sub Rat.inv Rat.ofScientific

/-- Str is the embedding of JavaScript strings. -/
abbrev Str := List Char

/-- cs converts a Lean string literal to its character list. -/
def cs (s : String) : Str := s.toList

/-- lbrace is the left curly-brace character. -/
def lbrace : Char := '\x7b'

/-- rbrace is the right curly-brace character. -/
def rbrace : Char := '\x7d'

/-- lowerStr mirrors String.prototype.toLowerCase (ASCII as used here). -/
def lowerStr (s : Str) : Str := s.map Char.toLower

/-- isPre p s is true when p is a leading segment of s (String.startsWith). -/
def isPre : Str → Str → Bool
  | [], _ => true
  | _ :: _, [] => false
  | p :: ps, c :: rest => p = c && isPre ps rest

/-- isSuf p s is true when p is a trailing segment of s (String.endsWith). -/
def isSuf (p s : Str) : Bool := isPre p.reverse s.reverse

/-- containsL s pat mirrors String.prototype.includes. -/
def containsL : Str → Str → Bool
  | s, pat =>
    if isPre pat s then true
    else match s with
      | [] => false
      | _ :: rest => containsL rest pat

/-- containsCI is a case-insensitive containment test, used for the
regular expressions written with the i flag in the source. -/
def containsCI (s pat : Str) : Bool := containsL (lowerStr s) (lowerStr pat)

/-- removeFirst c s drops the first occurrence of c, as in
pattern.replace a single-character pattern with the empty string. -/
def removeFirst (c : Char) : Str → Str
  | [] => []
  | d :: rest => if d = c then rest else d :: removeFirst c rest

/-- dedupAux keeps the first occurrence of each element, matching the
iteration order of a JavaScript Set built by insertion. -/
def dedupAux (seen : List Str) : List Str → List Str
  | [] => []
  | x :: rest =>
    if seen.contains x then dedupAux seen rest
    else x :: dedupAux (x :: seen) rest

/-- dedupL models new Set(list) iterated in insertion order. -/
def dedupL (l : List Str) : List Str := dedupAux [] l

/-- lastComponent models path.split(sep).pop() with a slash separator. -/
def lastComponent (p : Str) : Str :=
  p.foldl (fun acc c => if c = '/' then [] else acc ++ [c]) []

/-- countChar counts occurrences of a character. -/
def countChar (c : Char) (s : Str) : Nat := (s.filter (fun d => d = c)).length

/-- splitLen models s.split(sep).length for a single-character separator. -/
def splitLen (c : Char) (s : Str) : Nat := countChar c s + 1

/-- stripExtension models name.replace of a final dot-extension
(the regular expression: a dot, then one or more non-dots, at the end). -/
def stripExtension (s : Str) : Str :=
  let revTail := s.reverse.takeWhile (fun c => c ≠ '.')
  if revTail.length = 0 then s
  else match s.reverse.drop revTail.length with
    | '.' :: rest => rest.reverse
    | _ => s

/-- splitChar splits a string at every occurrence of a character,
modelling String.prototype.split with a one-character separator. -/
def splitChar (c : Char) : Str → List Str
  | [] => [[]]
  | d :: rest =>
    let r := splitChar c rest
    if d = c then [] :: r
    else match r with
      | [] => [[d]]
      | h :: t => (d :: h) :: t

/-- lookupStr is assoc-list lookup, modelling property access on a
string-keyed JavaScript object. -/
def lookupStr (m : List (Str × Str)) (k : Str) : Option Str :=
  (m.find? (fun kv => kv.1 == k)).map (·.2)

/-- setKey models obj[k] = v on a string-keyed object: an existing key
keeps its position, a new key is appended. -/
def setKey (m : List (Str × Str)) (k : Str) (v : Str) : List (Str × Str) :=
  if (m.find? (fun kv => kv.1 == k)).isSome then
    m.map (fun kv => if kv.1 == k then (kv.1, v) else kv)
  else m ++ [(k, v)]

/-- hasKey tests key presence in a string-keyed object. -/
def hasKey (m : List (Str × Str)) (k : Str) : Bool :=
  (m.find? (fun kv => kv.1 == k)).isSome

/-- joinWith models Array.prototype.join for a list of strings. -/
def joinWith (sep : Str) : List Str → Str
  | [] => []
  | [x] => x
  | x :: rest => x ++ sep ++ joinWith sep rest

/-- insertCmp inserts an element into a list, placing it before the
first element y with cmp x y < 0 and after all earlier ones.  Together
with sortCmp this is the stable insertion sort used to model
Array.prototype.sort with a numeric comparator. -/
def insertCmp {α : Type} (cmp : α → α → ℚ) (x : α) : List α → List α
  | [] => [x]
  | y :: ys => if cmp x y < 0 then x :: y :: ys else y :: insertCmp cmp x ys

/-- sortCmp models the stable Array.prototype.sort: an element is placed
before another exactly when the comparator says it must come earlier. -/
def sortCmp {α : Type} (cmp : α → α → ℚ) (l : List α) : List α :=
  l.foldl (fun acc x => insertCmp cmp x acc) []

/-- jsMin models Math.min on two numbers. -/
def jsMin (a b : ℚ) : ℚ := if a ≤ b then a else b

/-- jsMax models Math.max on two numbers. -/
def jsMax (a b : ℚ) : ℚ := if a ≤ b then b else a

/-- ratAbs models Math.abs. -/
def ratAbs (q : ℚ) : ℚ := if q < 0 then -q else q

/-- RepositoryType is the fixed enumeration of project kinds
(src/types/repository, the RepositoryType union). -/
inductive RepositoryType where
  | backend
  | frontend
  | mobile
  | infraAsCode
  | library
  | monorepo
  | unknown
deriving DecidableEq, Fintype, Repr

/-- allTypes lists the types in the declaration order of the score
record in TypeDetector.calculateTypeScores (Object.entries order). -/
def allTypes : List RepositoryType :=
  [.backend, .frontend, .mobile, .infraAsCode, .library, .monorepo, .unknown]

/-- IndicatorSource is the signal source of a TypeIndicator
(the field named type in the source: file, dependency, pattern, structure). -/
inductive IndicatorSource where
  | file
  | dependency
  | pattern
  | struct
deriving DecidableEq, Repr

/-- TypeIndicator embeds the TypeIndicator interface. -/
structure TypeIndicator where
  source : IndicatorSource
  name : Str
  path : Option Str := none
  confidence : ℚ
  suggestedType : RepositoryType
deriving DecidableEq, Repr

/-- DETECTION_WEIGHTS from type-detector.ts: per-source score weights. -/
def DETECTION_WEIGHTS : IndicatorSource → ℚ
  | .file => 3 / 10
  | .dependency => 4 / 10
  | .pattern => 2 / 10
  | .struct => 1 / 10

/-- TYPE_PRIORITY from type-detector.ts: tie-break ranking. -/
def TYPE_PRIORITY : RepositoryType → ℤ
  | .infraAsCode => 100
  | .library => 90
  | .monorepo => 85
  | .mobile => 80
  | .frontend => 70
  | .backend => 60
  | .unknown => 0

/-- FileInfo embeds the FileInfo interface (the optional language and
lineCount fields are unused by the analyzed code paths). -/
structure FileInfo where
  path : Str
  name : Str
  extension : Str
  size : Nat
deriving DecidableEq, Repr

/-- DirTree embeds the DirectoryStructure interface; a file node simply
has no children (the source's undefined children and an empty children
array are observationally equal in every analyzed code path). -/
inductive DirTree where
  | node (path : Str) (name : Str) (isDir : Bool) (children : List DirTree)

/-- DirTree.name projects the node name. -/
def DirTree.name : DirTree → Str
  | .node _ n _ _ => n

/-- DirTree.isDir is true for directory nodes. -/
def DirTree.isDir : DirTree → Bool
  | .node _ _ d _ => d

/-- DirTree.children projects the child list. -/
def DirTree.children : DirTree → List DirTree
  | .node _ _ _ c => c

/-- TYPE_DETECTION_PATTERNS from src/types/repository: file patterns per
repository type, in declaration order. -/
def TYPE_DETECTION_PATTERNS : List (RepositoryType × List Str) :=
  [ (.backend,
      [cs ("package.json"), cs ("requirements.txt"), cs ("go.mod"),
       cs ("Cargo.toml"), cs ("pom.xml"), cs ("build.gradle"),
       cs ("Gemfile"), cs ("composer.json")]),
    (.frontend,
      [cs ("package.json"), cs ("next.config.js"), cs ("nuxt.config.js"),
       cs ("vite.config.ts"), cs ("webpack.config.js"), cs ("angular.json"),
       cs ("svelte.config.js")]),
    (.mobile,
      [cs ("ios/"), cs ("android/"), cs ("App.tsx"), cs ("pubspec.yaml"),
       cs ("Podfile"), cs ("build.gradle"), cs ("capacitor.config.json")]),
    (.infraAsCode,
      [cs ("main.tf"), cs ("terraform/"), cs ("Pulumi.yaml"), cs ("ansible/"),
       cs ("kubernetes/"), cs ("k8s/"), cs ("helm/"), cs ("docker-compose.yml")]),
    (.library,
      [cs ("package.json"), cs ("setup.py"), cs ("pyproject.toml"),
       cs ("Cargo.toml"), cs ("lib/")]),
    (.monorepo,
      [cs ("pnpm-workspace.yaml"), cs ("lerna.json"), cs ("nx.json"),
       cs ("turbo.json"), cs ("packages/"), cs ("apps/")]),
    (.unknown, []) ]

/-- TechPatterns embeds one entry of TECH_STACK_PATTERNS: optional file
patterns and optional dependency patterns (absent lists are empty). -/
structure TechPatterns where
  files : List Str := []
  dependencies : List Str := []

/-- TECH_STACK_PATTERNS from src/types/repository, in declaration order.
Technology tags are kept as the strings they are in the source union. -/
def TECH_STACK_PATTERNS : List (Str × TechPatterns) :=
  [ (cs ("typescript"), { files := [cs ("tsconfig.json"), cs ("*.ts"), cs ("*.tsx")] }),
    (cs ("javascript"), { files := [cs ("*.js"), cs ("*.jsx"), cs (".eslintrc.js")] }),
    (cs ("python"), { files := [cs ("*.py"), cs ("requirements.txt"), cs ("setup.py"), cs ("pyproject.toml")] }),
    (cs ("java"), { files := [cs ("*.java"), cs ("pom.xml"), cs ("build.gradle")] }),
    (cs ("go"), { files := [cs ("*.go"), cs ("go.mod"), cs ("go.sum")] }),
    (cs ("rust"), { files := [cs ("*.rs"), cs ("Cargo.toml")] }),
    (cs ("csharp"), { files := [cs ("*.cs"), cs ("*.csproj"), cs ("*.sln")] }),
    (cs ("ruby"), { files := [cs ("*.rb"), cs ("Gemfile")] }),
    (cs ("php"), { files := [cs ("*.php"), cs ("composer.json")] }),
    (cs ("swift"), { files := [cs ("*.swift"), cs ("Package.swift")] }),
    (cs ("kotlin"), { files := [cs ("*.kt"), cs ("build.gradle.kts")] }),
    (cs ("express"), { dependencies := [cs ("express")] }),
    (cs ("nestjs"), { dependencies := [cs ("@nestjs/core")] }),
    (cs ("fastify"), { dependencies := [cs ("fastify")] }),
    (cs ("django"), { files := [cs ("manage.py"), cs ("settings.py")] }),
    (cs ("flask"), { dependencies := [cs ("flask")] }),
    (cs ("fastapi"), { dependencies := [cs ("fastapi")] }),
    (cs ("spring"), { files := [cs ("pom.xml")], dependencies := [cs ("spring-boot")] }),
    (cs ("rails"), { files := [cs ("Gemfile")], dependencies := [cs ("rails")] }),
    (cs ("laravel"), { files := [cs ("artisan"), cs ("composer.json")] }),
    (cs ("gin"), { dependencies := [cs ("github.com/gin-gonic/gin")] }),
    (cs ("actix"), { dependencies := [cs ("actix-web")] }),
    (cs ("react"), { dependencies := [cs ("react"), cs ("react-dom")] }),
    (cs ("vue"), { dependencies := [cs ("vue")] }),
    (cs ("angular"), { files := [cs ("angular.json")], dependencies := [cs ("@angular/core")] }),
    (cs ("svelte"), { dependencies := [cs ("svelte")] }),
    (cs ("nextjs"), { dependencies := [cs ("next")] }),
    (cs ("nuxt"), { dependencies := [cs ("nuxt")] }),
    (cs ("remix"), { dependencies := [cs ("@remix-run/react")] }),
    (cs ("gatsby"), { dependencies := [cs ("gatsby")] }),
    (cs ("react-native"), { dependencies := [cs ("react-native")] }),
    (cs ("flutter"), { files := [cs ("pubspec.yaml")] }),
    (cs ("swiftui"), { files := [cs ("*.swift")] }),
    (cs ("jetpack-compose"), { files := [cs ("build.gradle.kts")] }),
    (cs ("ionic"), { dependencies := [cs ("@ionic/angular"), cs ("@ionic/react"), cs ("@ionic/vue")] }),
    (cs ("capacitor"), { dependencies := [cs ("@capacitor/core")] }),
    (cs ("postgresql"), { dependencies := [cs ("pg"), cs ("psycopg2"), cs ("postgres")] }),
    (cs ("mysql"), { dependencies := [cs ("mysql"), cs ("mysql2"), cs ("pymysql")] }),
    (cs ("mongodb"), { dependencies := [cs ("mongodb"), cs ("mongoose"), cs ("pymongo")] }),
    (cs ("redis"), { dependencies := [cs ("redis"), cs ("ioredis")] }),
    (cs ("elasticsearch"), { dependencies := [cs ("@elastic/elasticsearch"), cs ("elasticsearch")] }),
    (cs ("neo4j"), { dependencies := [cs ("neo4j-driver")] }),
    (cs ("dynamodb"), { dependencies := [cs ("@aws-sdk/client-dynamodb")] }),
    (cs ("sqlite"), { dependencies := [cs ("sqlite3"), cs ("better-sqlite3")] }),
    (cs ("docker"), { files := [cs ("Dockerfile"), cs ("docker-compose.yml")] }),
    (cs ("kubernetes"), { files := [cs ("*.yaml"), cs ("k8s/"), cs ("kubernetes/")] }),
    (cs ("terraform"), { files := [cs ("*.tf"), cs ("main.tf")] }),
    (cs ("pulumi"), { files := [cs ("Pulumi.yaml")] }),
    (cs ("ansible"), { files := [cs ("ansible/"), cs ("playbook.yml")] }),
    (cs ("helm"), { files := [cs ("Chart.yaml"), cs ("values.yaml")] }),
    (cs ("aws"), { files := [cs ("serverless.yml"), cs ("sam.yaml")], dependencies := [cs ("@aws-sdk/core"), cs ("boto3")] }),
    (cs ("gcp"), { files := [cs ("app.yaml")], dependencies := [cs ("@google-cloud/core")] }),
    (cs ("azure"), { dependencies := [cs ("@azure/core-rest-pipeline")] }),
    (cs ("vercel"), { files := [cs ("vercel.json")] }),
    (cs ("netlify"), { files := [cs ("netlify.toml")] }),
    (cs ("cloudflare"), { files := [cs ("wrangler.toml")] }),
    (cs ("jest"), { dependencies := [cs ("jest")] }),
    (cs ("vitest"), { dependencies := [cs ("vitest")] }),
    (cs ("pytest"), { dependencies := [cs ("pytest")] }),
    (cs ("junit"), { dependencies := [cs ("junit")] }),
    (cs ("mocha"), { dependencies := [cs ("mocha")] }),
    (cs ("cypress"), { dependencies := [cs ("cypress")] }),
    (cs ("playwright"), { dependencies := [cs ("@playwright/test")] }),
    (cs ("graphql"), { files := [cs ("*.graphql"), cs ("*.gql")], dependencies := [cs ("graphql"), cs ("apollo-server")] }),
    (cs ("rest"), { files := [cs ("openapi.yaml"), cs ("swagger.json")] }),
    (cs ("grpc"), { files := [cs ("*.proto")], dependencies := [cs ("@grpc/grpc-js")] }),
    (cs ("websocket"), { dependencies := [cs ("ws"), cs ("socket.io")] }),
    (cs ("openapi"), { files := [cs ("openapi.yaml"), cs ("openapi.json"), cs ("swagger.yaml")] }) ]

/-- detectFileSignal processes one pattern of TYPE_DETECTION_PATTERNS for
one repository type, as the inner loop of TypeDetector.detectFromFiles:
a file-name hit yields a 0.7 indicator (and skips the path check); a
directory pattern hit on the first matching path yields a 0.6 indicator. -/
def detectFileSignal (fileNames filePaths : List Str) (repoType : RepositoryType)
    (pattern : Str) : List TypeIndicator :=
  let normalizedPattern := removeFirst '/' (lowerStr pattern)
  if fileNames.contains normalizedPattern then
    [{ source := .file, name := pattern, confidence := 7 / 10, suggestedType := repoType }]
  else if isSuf [ '/' ] pattern then
    let dirName := lowerStr pattern.dropLast
    match filePaths.find? (fun p =>
        isPre (dirName ++ [ '/' ]) p || containsL p ([ '/' ] ++ dirName ++ [ '/' ])) with
    | some p =>
      [{ source := .file, name := pattern, path := some p, confidence := 6 / 10,
         suggestedType := repoType }]
    | none => []
  else []

/-- detectFromFiles embeds TypeDetector.detectFromFiles: indicators from
file-name and directory-pattern presence, in table order. -/
def detectFromFiles (files : List FileInfo) : List TypeIndicator :=
  let fileNames := dedupL (files.map (fun f => lowerStr f.name))
  let filePaths := dedupL (files.map (fun f => lowerStr f.path))
  TYPE_DETECTION_PATTERNS.foldl (fun acc entry =>
    acc ++ entry.2.foldl (fun acc2 pattern =>
      acc2 ++ detectFileSignal fileNames filePaths entry.1 pattern) []) []

/-- PkgJson is the parsed shape of package.json that the detector reads:
dependency-name key lists and the presence of main, exports and types. -/
structure PkgJson where
  dependencies : List Str := []
  devDependencies : List Str := []
  hasMain : Bool := false
  hasExports : Bool := false
  hasTypes : Bool := false

/-- mergeKeys models the key list of a two-object spread: first object's
keys in order, then the second object's new keys. -/
def mergeKeys (a b : List Str) : List Str := a ++ b.filter (fun k => !a.contains k)

/-- depIndicator abbreviates a dependency-sourced indicator push. -/
def depIndicator (n : String) (conf : ℚ) (t : RepositoryType) : TypeIndicator :=
  { source := .dependency, name := cs n, confidence := conf, suggestedType := t }

/-- checkDependencies embeds TypeDetector.checkDependencies: npm/yarn
dependency names voting for a type, in source order. -/
def checkDependencies (depNames : List Str) : List TypeIndicator :=
  (if depNames.contains (cs ("react")) || depNames.contains (cs ("react-dom")) then
    [depIndicator ("react") (8 / 10) .frontend] else []) ++
  (if depNames.contains (cs ("vue")) then
    [depIndicator ("vue") (8 / 10) .frontend] else []) ++
  (if depNames.contains (cs ("@angular/core")) then
    [depIndicator ("@angular/core") (8 / 10) .frontend] else []) ++
  (if depNames.contains (cs ("svelte")) then
    [depIndicator ("svelte") (8 / 10) .frontend] else []) ++
  (if depNames.contains (cs ("next")) then
    [depIndicator ("next") (7 / 10) .frontend] else []) ++
  (if depNames.contains (cs ("express")) then
    [depIndicator ("express") (8 / 10) .backend] else []) ++
  (if depNames.contains (cs ("@nestjs/core")) then
    [depIndicator ("@nestjs/core") (9 / 10) .backend] else []) ++
  (if depNames.contains (cs ("fastify")) then
    [depIndicator ("fastify") (8 / 10) .backend] else []) ++
  (if depNames.contains (cs ("koa")) then
    [depIndicator ("koa") (8 / 10) .backend] else []) ++
  (if depNames.contains (cs ("react-native")) then
    [depIndicator ("react-native") (95 / 100) .mobile] else []) ++
  (if depNames.contains (cs ("@ionic/angular")) || depNames.contains (cs ("@ionic/react"))
      || depNames.contains (cs ("@ionic/vue")) then
    [depIndicator ("ionic") (9 / 10) .mobile] else []) ++
  (if depNames.contains (cs ("@capacitor/core")) then
    [depIndicator ("@capacitor/core") (85 / 100) .mobile] else []) ++
  (if depNames.contains (cs ("lerna")) || depNames.contains (cs ("nx"))
      || depNames.contains (cs ("turbo")) then
    [depIndicator ("monorepo-tool") (9 / 10) .monorepo] else [])

/-- checkPythonDependencies embeds the requirements.txt substring checks. -/
def checkPythonDependencies (requirements : Str) : List TypeIndicator :=
  let deps := lowerStr requirements
  (if containsL deps (cs ("django")) then
    [depIndicator ("django") (9 / 10) .backend] else []) ++
  (if containsL deps (cs ("flask")) then
    [depIndicator ("flask") (85 / 100) .backend] else []) ++
  (if containsL deps (cs ("fastapi")) then
    [depIndicator ("fastapi") (9 / 10) .backend] else []) ++
  (if containsL deps (cs ("kivy")) || containsL deps (cs ("beeware")) then
    [depIndicator ("python-mobile") (8 / 10) .mobile] else [])

/-- checkGoDependencies embeds the go.mod substring checks. -/
def checkGoDependencies (goMod : Str) : List TypeIndicator :=
  (if containsL goMod (cs ("github.com/gin-gonic/gin")) then
    [depIndicator ("gin") (9 / 10) .backend] else []) ++
  (if containsL goMod (cs ("github.com/gofiber/fiber")) then
    [depIndicator ("fiber") (9 / 10) .backend] else []) ++
  (if containsL goMod (cs ("github.com/labstack/echo")) then
    [depIndicator ("echo") (9 / 10) .backend] else [])

/-- checkRustDependencies embeds the Cargo.toml substring checks. -/
def checkRustDependencies (cargoToml : Str) : List TypeIndicator :=
  (if containsL cargoToml (cs ("actix-web")) then
    [depIndicator ("actix-web") (9 / 10) .backend] else []) ++
  (if containsL cargoToml (cs ("rocket")) then
    [depIndicator ("rocket") (9 / 10) .backend] else []) ++
  (if containsL cargoToml (cs ("tauri")) then
    [depIndicator ("tauri") (85 / 100) .frontend] else [])

/-- DetectorEnv is the Source Access Layer as the detector consumes it:
bounded file reads, package.json parsing (JSON.parse is outside the
repository and is therefore environment-provided), and the recursive
listing used for monorepo sub-type detection. -/
structure DetectorEnv where
  readFile : Str → Str → Option Str
  parsePkg : Str → Option PkgJson
  getFiles : Str → List FileInfo
  getDirectoryStructure : Str → Nat → DirTree

/-- readPackageJson embeds TypeDetector.readPackageJson: a missing file
or unparsable content yields none. -/
def readPackageJson (env : DetectorEnv) (localPath : Str) : Option PkgJson :=
  match env.readFile localPath (cs ("package.json")) with
  | none => none
  | some content => env.parsePkg content

/-- detectFromDependencies embeds TypeDetector.detectFromDependencies:
package.json dependency checks plus the library-exports pattern, then
requirements.txt, go.mod and Cargo.toml. -/
def detectFromDependencies (env : DetectorEnv) (localPath : Str) : List TypeIndicator :=
  (match readPackageJson env localPath with
   | some pkg =>
     let allDeps := mergeKeys pkg.dependencies pkg.devDependencies
     checkDependencies allDeps ++
     (if pkg.hasMain || pkg.hasExports || pkg.hasTypes then
       [{ source := .pattern, name := cs ("Library exports"), confidence := 6 / 10,
          suggestedType := .library }]
      else [])
   | none => []) ++
  (match env.readFile localPath (cs ("requirements.txt")) with
   | some requirements => checkPythonDependencies requirements
   | none => []) ++
  (match env.readFile localPath (cs ("go.mod")) with
   | some goMod => checkGoDependencies goMod
   | none => []) ++
  (match env.readFile localPath (cs ("Cargo.toml")) with
   | some cargoToml => checkRustDependencies cargoToml
   | none => [])

/-- structIndicator abbreviates a structure-sourced indicator. -/
def structIndicator (n : String) (conf : ℚ) (t : RepositoryType) : TypeIndicator :=
  { source := .struct, name := cs n, confidence := conf, suggestedType := t }

/-- detectFromStructure embeds TypeDetector.detectFromStructure:
directory-shape heuristics on the top-level directories. -/
def detectFromStructure (structure_ : DirTree) : List TypeIndicator :=
  let topLevelDirs := (structure_.children.filter DirTree.isDir).map
    (fun c => lowerStr c.name)
  (if topLevelDirs.contains (cs ("packages")) || topLevelDirs.contains (cs ("apps")) then
    [structIndicator ("monorepo-structure") (7 / 10) .monorepo] else []) ++
  (if topLevelDirs.contains (cs ("terraform")) || topLevelDirs.contains (cs ("infrastructure")) then
    [structIndicator ("infra-directory") (8 / 10) .infraAsCode] else []) ++
  (if topLevelDirs.contains (cs ("ios")) && topLevelDirs.contains (cs ("android")) then
    [structIndicator ("mobile-platforms") (9 / 10) .mobile] else []) ++
  (if topLevelDirs.contains (cs ("components")) || topLevelDirs.contains (cs ("pages")) then
    [structIndicator ("frontend-structure") (5 / 10) .frontend] else []) ++
  (if topLevelDirs.contains (cs ("controllers")) || topLevelDirs.contains (cs ("routes"))
      || topLevelDirs.contains (cs ("api")) then
    [structIndicator ("backend-structure") (5 / 10) .backend] else []) ++
  (if (topLevelDirs.contains (cs ("lib")) || topLevelDirs.contains (cs ("src")))
      && (topLevelDirs.contains (cs ("test")) || topLevelDirs.contains (cs ("tests")))
      && topLevelDirs.contains (cs ("examples")) then
    [structIndicator ("library-structure") (6 / 10) .library] else [])

/-- rawScores accumulates confidence times source weight per suggested
type, the first half of TypeDetector.calculateTypeScores. -/
def rawScores (indicators : List TypeIndicator) : RepositoryType → ℚ :=
  indicators.foldl
    (fun s i t =>
      if t = i.suggestedType then s t + i.confidence * DETECTION_WEIGHTS i.source
      else s t)
    (fun _ => 0)

/-- maxScoreOf models Math.max over all raw scores and the 0.01 floor. -/
def maxScoreOf (indicators : List TypeIndicator) : ℚ :=
  (allTypes.map (rawScores indicators)).foldr jsMax (1 / 100)

/-- calculateTypeScores embeds TypeDetector.calculateTypeScores: raw
weighted sums normalized by the maximum score (floored at 0.01). -/
def calculateTypeScores (indicators : List TypeIndicator) : RepositoryType → ℚ :=
  fun t => rawScores indicators t / maxScoreOf indicators

/-- cmpEntries is the comparator passed to Array.prototype.sort in
TypeDetector.detect: descending score, with ties closer than 0.1 broken
by the static TYPE_PRIORITY ranking. -/
def cmpEntries (a b : RepositoryType × ℚ) : ℚ :=
  let scoreDiff := b.2 - a.2
  if ratAbs scoreDiff < 1 / 10 then ((TYPE_PRIORITY b.1 - TYPE_PRIORITY a.1 : ℤ) : ℚ)
  else scoreDiff

/-- sortedPositives builds the sortedTypes list of TypeDetector.detect:
entries with a positive normalized score, sorted by cmpEntries. -/
def sortedPositives (typeScores : RepositoryType → ℚ) : List (RepositoryType × ℚ) :=
  sortCmp cmpEntries ((allTypes.map (fun t => (t, typeScores t))).filter (fun e => 0 < e.2))

/-- selectPrimary returns the primary type and its pre-clamp confidence,
matching sortedTypes[0] with the unknown / 0 fallbacks. -/
def selectPrimary (typeScores : RepositoryType → ℚ) : RepositoryType × ℚ :=
  match (sortedPositives typeScores).head? with
  | some e => e
  | none => (.unknown, 0)

/-- detectTechStack embeds TypeDetector.detectTechStack: file-pattern and
extension matches, dependency-indicator substring matches, and a second
direct pass over package.json dependency keys. -/
def detectTechStack (env : DetectorEnv) (localPath : Str) (files : List FileInfo)
    (indicators : List TypeIndicator) : List Str :=
  let fileExtensions := dedupL (files.map (fun f => f.extension))
  let fileNames := dedupL (files.map (fun f => lowerStr f.name))
  let afterPatterns := TECH_STACK_PATTERNS.foldl (fun detected entry =>
    let hitFiles := entry.2.files.any (fun filePattern =>
      if isPre (cs ("*.")) filePattern then fileExtensions.contains (filePattern.drop 1)
      else fileNames.contains (lowerStr filePattern))
    let detected2 :=
      if hitFiles && !detected.contains entry.1 then detected ++ [entry.1]
      else detected
    let hitDeps := entry.2.dependencies.any (fun dep =>
      indicators.any (fun i =>
        i.source = .dependency && containsL (lowerStr i.name) (lowerStr dep)))
    if hitDeps && !detected2.contains entry.1 then detected2 ++ [entry.1]
    else detected2) []
  match readPackageJson env localPath with
  | some pkg =>
    let allDeps := mergeKeys pkg.dependencies pkg.devDependencies
    TECH_STACK_PATTERNS.foldl (fun detected entry =>
      let hit := entry.2.dependencies.any (fun dep =>
        allDeps.any (fun d => lowerStr d == lowerStr dep))
      if hit && !detected.contains entry.1 then detected ++ [entry.1]
      else detected) afterPatterns
  | none => afterPatterns

/-- TypeDetectionResult embeds the TypeDetectionResult interface. -/
structure TypeDetectionResult where
  primaryType : RepositoryType
  confidence : ℚ
  techStack : List Str
  indicators : List TypeIndicator
  subTypes : Option (List RepositoryType)
deriving DecidableEq, Repr

/-- joinPath models path.join of three further segments. -/
def joinPath (base dir sub : Str) : Str := base ++ [ '/' ] ++ dir ++ [ '/' ] ++ sub

/-- packageDirs is the conventional monorepo package-root list. -/
def packageDirs : List Str := [cs ("packages"), cs ("apps"), cs ("libs"), cs ("modules")]

/-- detectCore is the body of TypeDetector.detect: collect indicators,
score, select the primary type, detect the technology stack, and filter
the reported indicators; the monorepo sub-type scan is supplied lazily
by the caller so that the fuel recursion below stays structural. -/
def detectCore (env : DetectorEnv) (localPath : Str) (structure_ : DirTree)
    (files : List FileInfo) (subsFor : Unit → List RepositoryType) :
    TypeDetectionResult :=
  let indicators := detectFromFiles files ++ detectFromDependencies env localPath
    ++ detectFromStructure structure_
  let typeScores := calculateTypeScores indicators
  let primary := selectPrimary typeScores
  let techStack := detectTechStack env localPath files indicators
  let subTypes := if primary.1 = .monorepo then some (subsFor ()) else none
  { primaryType := primary.1,
    confidence := jsMin primary.2 1,
    techStack := techStack,
    indicators := indicators.filter (fun i => 3 / 10 < i.confidence),
    subTypes := subTypes }

/-- detectMonorepoSubTypesF embeds TypeDetector.detectMonorepoSubTypes,
parameterized over the recursive classification call: classify each
package directory under the conventional roots and collect the
non-monorepo, non-unknown verdicts as a set. -/
def detectMonorepoSubTypesF (env : DetectorEnv)
    (recDetect : Str → DirTree → List FileInfo → TypeDetectionResult)
    (localPath : Str) (structure_ : DirTree) : List RepositoryType :=
  packageDirs.foldl (fun subTypes dir =>
    match structure_.children.find? (fun c => c.isDir && lowerStr c.name == dir) with
    | some dirPath =>
      dirPath.children.foldl (fun st subDir =>
        if subDir.isDir then
          let subLocalPath := joinPath localPath dir subDir.name
          let subFiles := env.getFiles subLocalPath
          let subStructure := env.getDirectoryStructure subLocalPath 2
          let result := recDetect subLocalPath subStructure subFiles
          if result.primaryType ≠ .unknown && result.primaryType ≠ .monorepo
              && !st.contains result.primaryType then
            st ++ [result.primaryType]
          else st
        else st) subTypes
    | none => subTypes) []

/-- detect embeds TypeDetector.detect.  The fuel argument bounds the
monorepo sub-type recursion depth (the real recursion terminates on the
finite directory tree); every fuel-zero difference is confined to the
sub-type list of a deeply nested monorepo. -/
def detect (env : DetectorEnv) : Nat → Str → DirTree → List FileInfo → TypeDetectionResult
  | 0, localPath, structure_, files =>
    detectCore env localPath structure_ files (fun _ => [])
  | Nat.succ fuel, localPath, structure_, files =>
    detectCore env localPath structure_ files
      (fun _ => detectMonorepoSubTypesF env (detect env fuel) localPath structure_)

/-- detectMonorepoSubTypes is the named entry of the sub-type scan. -/
def detectMonorepoSubTypes (env : DetectorEnv) (fuel : Nat) (localPath : Str)
    (structure_ : DirTree) : List RepositoryType :=
  detectMonorepoSubTypesF env (detect env fuel) localPath structure_

/-- FindingType is the analysis category enumeration. -/
inductive FindingType where
  | architecture
  | security
  | performance
  | documentation
  | testing
  | maintainability
deriving DecidableEq, Fintype, Repr

/-- TargetType is the targetType field of a PromptConfig: a specific
repository type or the all marker. -/
inductive TargetType where
  | all
  | only (t : RepositoryType)
deriving DecidableEq, Repr

/-- OutputFormat is the outputFormat field of a PromptConfig. -/
inductive OutputFormat where
  | markdown
  | json
  | structured
deriving DecidableEq, Repr

/-- PromptVariable embeds the PromptVariable interface; vtype is the
field named type in the source, kept as its literal string. -/
structure PromptVariable where
  name : Str
  vtype : Str
  required : Bool := true
deriving DecidableEq, Repr

/-- PromptConfig embeds the PromptConfig interface; vars is the field
named variables in the source (a reserved word here), and the purely
descriptive name and description fields are omitted. -/
structure PromptConfig where
  id : Str
  targetType : TargetType := .all
  category : FindingType := .architecture
  order : ℤ := 1
  template : Str := []
  vars : List PromptVariable := []
  contextRequired : List Str := []
  outputFormat : OutputFormat := .markdown
deriving DecidableEq, Repr

/-- promptLookup models Map lookup in the map built from
prompts.map(p => [p.id, p]): for duplicate ids the last entry wins. -/
def promptLookup (prompts : List PromptConfig) (pid : Str) : Option PromptConfig :=
  prompts.reverse.find? (fun p => p.id == pid)

/-- ResolveState carries the resolver's mutable state: the resolved
output list, the pending id set, and the visited set.  In the source the
visited set object is shared by reference along the whole recursion of
one top-level resolve call, so it is threaded through the state. -/
structure ResolveState where
  resolved : List PromptConfig
  pending : List Str
  visited : List Str

/-- resolveAux embeds the inner resolve closure of
PromptEngine.resolvePromptDependencies.  A task found while still
pending but already visited is the cycle case: the back-edge is dropped
(the source logs a warning and returns).  The fuel only bounds the
recursion depth; it exceeds the largest possible visited set, so the
zero case is never reached from resolvePromptDependencies. -/
def resolveAux (prompts : List PromptConfig) : Nat → Str → ResolveState → ResolveState
  | 0, _, st => st
  | Nat.succ fuel, pid, st =>
    if !st.pending.contains pid then st
    else if st.visited.contains pid then st
    else match promptLookup prompts pid with
      | none => st
      | some prompt =>
        let st1 : ResolveState := { st with visited := st.visited ++ [pid] }
        let st2 := prompt.contextRequired.foldl (fun acc depId =>
          if (promptLookup prompts depId).isSome then resolveAux prompts fuel depId acc
          else acc) st1
        { st2 with
          resolved := st2.resolved ++ [prompt],
          pending := st2.pending.erase pid }

/-- resolvePromptDependencies embeds
PromptEngine.resolvePromptDependencies: a depth-first emission of each
prompt's dependencies before the prompt itself, with a fresh visited set
per top-level prompt. -/
def resolvePromptDependencies (prompts : List PromptConfig) : List PromptConfig :=
  let pending := dedupL (prompts.map (fun p => p.id))
  let final := prompts.foldl (fun (st : ResolveState) p =>
      let st1 := resolveAux prompts (prompts.length + 1) p.id
        { resolved := st.resolved, pending := st.pending, visited := [] }
      { resolved := st1.resolved, pending := st1.pending, visited := [] })
    { resolved := [], pending := pending, visited := [] }
  final.resolved

/-- repoTypeStr maps a repository type to its source string literal. -/
def repoTypeStr : RepositoryType → Str
  | .backend => cs ("backend")
  | .frontend => cs ("frontend")
  | .mobile => cs ("mobile")
  | .infraAsCode => cs ("infra-as-code")
  | .library => cs ("library")
  | .monorepo => cs ("monorepo")
  | .unknown => cs ("unknown")

/-- PromptContext embeds the PromptContext interface. -/
structure PromptContext where
  repoUrl : Str := []
  repoName : Str := []
  branch : Str := []
  commitHash : Str := []
  repoType : RepositoryType := .unknown
  techStack : List Str := []
  directoryStructure : Str := []
  fileList : List Str := []
  fileContents : List (Str × Str) := []
  previousContext : List (Str × Str) := []
  configFiles : List (Str × Str) := []
deriving DecidableEq, Repr

/-- RValue is a value looked up from the rendering context: a string, an
array of strings, or a string-valued object, matching every value shape
the context and the extract helpers produce. -/
inductive RValue where
  | vstr (s : Str)
  | vlist (xs : List Str)
  | vmap (m : List (Str × Str))
deriving DecidableEq, Repr

/-- extractPackageFiles embeds PromptEngine.extractPackageFiles. -/
def extractPackageFiles (ctx : PromptContext) : List (Str × Str) :=
  let patterns := [cs ("package.json"), cs ("requirements.txt"), cs ("Pipfile"),
    cs ("pyproject.toml"), cs ("go.mod"), cs ("Cargo.toml"), cs ("pom.xml"),
    cs ("build.gradle"), cs ("Gemfile"), cs ("composer.json")]
  ctx.fileContents.filter (fun kv => patterns.contains (lastComponent kv.1))

/-- extractLockFiles embeds PromptEngine.extractLockFiles. -/
def extractLockFiles (ctx : PromptContext) : List (Str × Str) :=
  let patterns := [cs ("package-lock.json"), cs ("yarn.lock"), cs ("pnpm-lock.yaml"),
    cs ("Pipfile.lock"), cs ("poetry.lock"), cs ("go.sum"), cs ("Cargo.lock"),
    cs ("Gemfile.lock"), cs ("composer.lock")]
  ctx.fileContents.filter (fun kv => patterns.contains (lastComponent kv.1))

/-- testPathMatch expands the test-file regular expressions of
PromptEngine.extractTestFiles into explicit suffix tests. -/
def testPathMatch (p : Str) : Bool :=
  isSuf (cs (".test.js")) p || isSuf (cs (".test.ts")) p ||
  isSuf (cs (".test.jsx")) p || isSuf (cs (".test.tsx")) p ||
  isSuf (cs (".spec.js")) p || isSuf (cs (".spec.ts")) p ||
  isSuf (cs (".spec.jsx")) p || isSuf (cs (".spec.tsx")) p ||
  isSuf (cs ("_test.go")) p || isSuf (cs ("_test.py")) p ||
  (isSuf (cs (".py")) p && containsL (p.dropLast.dropLast.dropLast) (cs ("test_"))) ||
  isSuf (cs ("Test.java")) p || isSuf (cs (".test.rs")) p

/-- extractTestFiles embeds PromptEngine.extractTestFiles. -/
def extractTestFiles (ctx : PromptContext) : List (Str × Str) :=
  ctx.fileContents.filter (fun kv => testPathMatch kv.1)

/-- routePathMatch expands the route-file regular expressions (all with
the i flag) of PromptEngine.extractRouteFiles. -/
def routePathMatch (p : Str) : Bool :=
  containsCI p (cs ("route/")) || containsCI p (cs ("routes/")) ||
  containsCI p (cs ("controller/")) || containsCI p (cs ("controllers/")) ||
  containsCI p (cs ("handler/")) || containsCI p (cs ("handlers/")) ||
  containsCI p (cs ("api/")) ||
  containsCI p (cs ("endpoint/")) || containsCI p (cs ("endpoints/"))

/-- extractRouteFiles embeds PromptEngine.extractRouteFiles. -/
def extractRouteFiles (ctx : PromptContext) : List (Str × Str) :=
  ctx.fileContents.filter (fun kv => routePathMatch kv.1)

/-- componentPathMatch expands the component-file patterns of
PromptEngine.extractComponentFiles. -/
def componentPathMatch (p : Str) : Bool :=
  containsCI p (cs ("component/")) || containsCI p (cs ("components/")) ||
  isSuf (cs (".vue")) p || isSuf (cs (".tsx")) p || isSuf (cs (".component.ts")) p

/-- extractComponentFiles embeds PromptEngine.extractComponentFiles. -/
def extractComponentFiles (ctx : PromptContext) : List (Str × Str) :=
  ctx.fileContents.filter (fun kv => componentPathMatch kv.1)

/-- statePathMatch expands the state-management patterns of
PromptEngine.extractStateFiles. -/
def statePathMatch (p : Str) : Bool :=
  containsCI p (cs ("store/")) || containsCI p (cs ("redux")) ||
  containsCI p (cs ("context")) || containsCI p (cs ("state")) ||
  containsCI p (cs ("vuex")) || containsCI p (cs ("pinia")) ||
  containsCI p (cs ("zustand")) || containsCI p (cs ("recoil")) ||
  containsCI p (cs ("jotai"))

/-- extractStateFiles embeds PromptEngine.extractStateFiles. -/
def extractStateFiles (ctx : PromptContext) : List (Str × Str) :=
  ctx.fileContents.filter (fun kv => statePathMatch kv.1)

/-- docsPathMatch expands the documentation patterns of
PromptEngine.extractDocsFiles. -/
def docsPathMatch (p : Str) : Bool :=
  containsCI p (cs ("doc/")) || containsCI p (cs ("docs/")) ||
  isSuf (cs (".md")) p || containsCI p (cs ("documentation/")) ||
  containsCI p (cs ("wiki/"))

/-- extractDocsFiles embeds PromptEngine.extractDocsFiles. -/
def extractDocsFiles (ctx : PromptContext) : List (Str × Str) :=
  ctx.fileContents.filter (fun kv => docsPathMatch kv.1)

/-- sourcePathMatch expands the source-file patterns of
PromptEngine.extractCodeComments. -/
def sourcePathMatch (p : Str) : Bool :=
  isSuf (cs (".js")) p || isSuf (cs (".jsx")) p ||
  isSuf (cs (".ts")) p || isSuf (cs (".tsx")) p ||
  isSuf (cs (".py")) p || isSuf (cs (".go")) p ||
  isSuf (cs (".java")) p || isSuf (cs (".rs")) p

/-- lineHasComment is the per-line comment test of extractCodeComments. -/
def lineHasComment (line : Str) : Bool :=
  containsL line (cs ("//")) || containsL line (cs ("/*")) ||
  containsL line (cs ("#")) || containsL line (cs ("\"\"\"")) ||
  containsL line (cs ("'''"))

/-- extractCodeComments embeds PromptEngine.extractCodeComments: up to
five source files whose first hundred lines contain a comment marker. -/
def extractCodeComments (ctx : PromptContext) : List (Str × Str) :=
  (ctx.fileContents.foldl (fun (acc : List (Str × Str) × Nat) kv =>
    if acc.2 ≥ 5 then acc
    else if sourcePathMatch kv.1 then
      let lines := (splitChar '\n' kv.2).take 100
      if lines.any lineHasComment then
        (acc.1 ++ [(kv.1, joinWith [ '\n' ] lines)], acc.2 + 1)
      else acc
    else acc) ([], 0)).1

/-- extractTestConfig embeds PromptEngine.extractTestConfig. -/
def extractTestConfig (ctx : PromptContext) : List (Str × Str) :=
  let patterns := [cs ("jest.config.js"), cs ("jest.config.ts"), cs ("vitest.config.ts"),
    cs ("karma.conf.js"), cs ("pytest.ini"), cs ("setup.cfg"), cs ("tox.ini"),
    cs (".mocharc.json"), cs ("ava.config.js")]
  ctx.fileContents.filter (fun kv => patterns.contains (lastComponent kv.1))

/-- extractApiSpec embeds PromptEngine.extractApiSpec: the first API
specification file's content, or the empty string. -/
def extractApiSpec (ctx : PromptContext) : Str :=
  let patterns := [cs ("openapi.yaml"), cs ("openapi.json"), cs ("swagger.yaml"),
    cs ("swagger.json"), cs ("api.yaml"), cs ("api.json")]
  match ctx.fileContents.find? (fun kv => patterns.contains (lastComponent kv.1)) with
  | some kv => kv.2
  | none => []

/-- jsOrStr models the JavaScript a-or-else chain on strings, where the
empty string is falsy. -/
def jsOrStr (a : Option Str) (b : Str) : Str :=
  match a with
  | some s => if s.isEmpty then b else s
  | none => b

/-- resolveVariable embeds PromptEngine.resolveVariable.  A result of
none is the JavaScript null of the default branch: the name is neither a
context property nor one of the special variable names. -/
def resolveVariable (name : Str) (ctx : PromptContext) : Option RValue :=
  if name = cs ("repoUrl") then some (.vstr ctx.repoUrl)
  else if name = cs ("repoName") then some (.vstr ctx.repoName)
  else if name = cs ("branch") then some (.vstr ctx.branch)
  else if name = cs ("commitHash") then some (.vstr ctx.commitHash)
  else if name = cs ("repoType") then some (.vstr (repoTypeStr ctx.repoType))
  else if name = cs ("techStack") then some (.vlist ctx.techStack)
  else if name = cs ("directoryStructure") then some (.vstr ctx.directoryStructure)
  else if name = cs ("fileList") then some (.vlist ctx.fileList)
  else if name = cs ("fileContents") then some (.vmap ctx.fileContents)
  else if name = cs ("previousContext") then some (.vmap ctx.previousContext)
  else if name = cs ("configFiles") then some (.vmap ctx.configFiles)
  else if name = cs ("sourceFiles") then some (.vmap ctx.fileContents)
  else if name = cs ("packageFiles") then some (.vmap (extractPackageFiles ctx))
  else if name = cs ("lockFiles") then some (.vmap (extractLockFiles ctx))
  else if name = cs ("testFiles") then some (.vmap (extractTestFiles ctx))
  else if name = cs ("routeFiles") then some (.vmap (extractRouteFiles ctx))
  else if name = cs ("componentFiles") then some (.vmap (extractComponentFiles ctx))
  else if name = cs ("stateFiles") then some (.vmap (extractStateFiles ctx))
  else if name = cs ("readme") then
    some (.vstr (jsOrStr (lookupStr ctx.fileContents (cs ("README.md")))
      (jsOrStr (lookupStr ctx.fileContents (cs ("readme.md"))) [])))
  else if name = cs ("docs") then some (.vmap (extractDocsFiles ctx))
  else if name = cs ("codeComments") then some (.vmap (extractCodeComments ctx))
  else if name = cs ("testConfig") then some (.vmap (extractTestConfig ctx))
  else if name = cs ("apiSpec") then some (.vstr (extractApiSpec ctx))
  else none

/-- jsToString models the implicit String(value) conversion: a string is
itself, an array joins with commas, an object prints as object. -/
def jsToString : RValue → Str
  | .vstr s => s
  | .vlist xs => joinWith [ ',' ] xs
  | .vmap _ => cs ("[object Object]")

/-- markerL is the literal marker produced for a missing variable. -/
def markerL : Str := cs ("[Not available]")

/-- formatObjectAsMarkdown embeds PromptEngine.formatObjectAsMarkdown
for the string-valued objects every caller passes. -/
def formatObjectAsMarkdown (m : List (Str × Str)) : Str :=
  joinWith (cs ("\n\n"))
    (m.map (fun kv => cs ("### ") ++ kv.1 ++ cs ("\n```\n") ++ kv.2 ++ cs ("\n```")))

/-- formatValue embeds PromptEngine.formatValue: null and undefined
render as the not-available marker, otherwise the declared variable type
selects string conversion, comma join, or markdown-block flattening. -/
def formatValue (value : Option RValue) (vtype : Str) : Str :=
  match value with
  | none => markerL
  | some v =>
    if vtype = cs ("string") then jsToString v
    else if vtype = cs ("array") then
      match v with
      | .vlist xs => joinWith (cs (", ")) xs
      | _ => jsToString v
    else if vtype = cs ("object") then
      match v with
      | .vmap m => formatObjectAsMarkdown m
      | _ => jsToString v
    else jsToString v

/-- phOf builds the placeholder string for a variable name. -/
def phOf (name : Str) : Str := lbrace :: lbrace :: (name ++ [rbrace, rbrace])

/-- replaceAllF is a fuel-indexed global replacement of a literal
pattern, scanning left to right over non-overlapping occurrences; it
models content.replace with a global regular expression built from the
placeholder (whose characters are not regex metacharacters for the
variable names in use; dollar escapes in the replacement are not
modelled, no analysed property depends on them).  Fuel at least the
length of the string plus one completes the scan. -/
def replaceAllF (pat rep : Str) : Nat → Str → Str
  | 0, s => s
  | Nat.succ fuel, s =>
    if pat.isEmpty = false ∧ isPre pat s = true then
      rep ++ replaceAllF pat rep fuel (s.drop pat.length)
    else match s with
      | [] => []
      | c :: rest => c :: replaceAllF pat rep fuel rest

/-- replaceAll runs replaceAllF with enough fuel to finish. -/
def replaceAll (pat rep s : Str) : Str := replaceAllF pat rep (s.length + 1) s

/-- renderVarsStep is one iteration of the variable loop of
PromptEngine.renderPrompt: resolve, and replace every occurrence of the
placeholder when the evolving content still contains it. -/
def renderVarsStep (ctx : PromptContext) (content : Str) (v : PromptVariable) : Str :=
  let value := resolveVariable v.name ctx
  let ph := phOf v.name
  if containsL content ph then replaceAll ph (formatValue value v.vtype) content
  else content

/-- isIdChar is the character class of the nested-reference id capture
(letters of either case and dash, from the i-flagged a to z range). -/
def isIdChar (c : Char) : Bool := c.isAlpha || c = '-'

/-- nestedPatLower is the lower-cased literal prefix of the nested
previousContext reference pattern. -/
def nestedPatLower : Str := lbrace :: lbrace :: cs ("previouscontext.")

/-- matchCI matches a lower-cased literal pattern case-insensitively,
returning the consumed source text and the remainder. -/
def matchCI : Str → Str → Option (Str × Str)
  | [], s => some ([], s)
  | _ :: _, [] => none
  | p :: ps, c :: rest =>
    if c.toLower = p then (matchCI ps rest).map (fun pr => (c :: pr.1, pr.2))
    else none

/-- takeIdChars is the maximal munch of id characters. -/
def takeIdChars : Str → Str × Str
  | [] => ([], [])
  | c :: rest =>
    if isIdChar c then
      let pr := takeIdChars rest
      (c :: pr.1, pr.2)
    else ([], c :: rest)

/-- noPrevMarker is the replacement for a missing nested reference. -/
def noPrevMarker (pid : Str) : Str :=
  cs ("[No previous context for ") ++ pid ++ [ ']' ]

/-- tryMatch attempts the nested previousContext pattern at the head of
the string.  On success it returns the consumed text, the replacement
(the stored previous result when present and non-empty, since the
source's truthiness test drops empty strings, else the explicit missing
marker), and the remainder. -/
def tryMatch (prev : List (Str × Str)) (s : Str) : Option (Str × Str × Str) :=
  match matchCI nestedPatLower s with
  | none => none
  | some (m1, r1) =>
    let pr := takeIdChars r1
    if pr.1.isEmpty then none
    else if isPre [rbrace, rbrace] pr.2 then
      let repl :=
        match lookupStr prev pr.1 with
        | some out => if out.isEmpty then noPrevMarker pr.1 else out
        | none => noPrevMarker pr.1
      some (m1 ++ pr.1 ++ [rbrace, rbrace], repl, pr.2.drop 2)
    else none

/-- applyNestedF is the fuel-indexed scan that performs the second
rendering pass: each nested previousContext reference is replaced, other
characters are copied.  Fuel at least the length plus one completes it. -/
def applyNestedF (prev : List (Str × Str)) : Nat → Str → Str
  | 0, s => s
  | Nat.succ fuel, s =>
    match tryMatch prev s with
    | some (_, repl, rest) => repl ++ applyNestedF prev fuel rest
    | none =>
      match s with
      | [] => []
      | c :: rest => c :: applyNestedF prev fuel rest

/-- applyNested runs applyNestedF with enough fuel to finish. -/
def applyNested (prev : List (Str × Str)) (s : Str) : Str :=
  applyNestedF prev (s.length + 1) s

/-- RenderedPrompt embeds the RenderedPrompt interface (the diagnostic
variables record is omitted). -/
structure RenderedPrompt where
  promptId : Str
  content : Str
  outputFormat : OutputFormat
deriving DecidableEq, Repr

/-- renderPrompt embeds PromptEngine.renderPrompt: the declared-variable
substitution pass followed by the nested previousContext pass. -/
def renderPrompt (p : PromptConfig) (ctx : PromptContext) : RenderedPrompt :=
  let c1 := p.vars.foldl (renderVarsStep ctx) p.template
  let c2 := applyNested ctx.previousContext c1
  { promptId := p.id, content := c2, outputFormat := p.outputFormat }

/-- AnalysisStatus is the job state enumeration of the pipeline. -/
inductive AnalysisStatus where
  | queued
  | cloning
  | detecting
  | analyzing
  | synthesizing
  | generating
  | completed
  | failed
deriving DecidableEq, Repr

/-- Depth is the requested analysis depth. -/
inductive Depth where
  | quick
  | standard
  | deep
deriving DecidableEq, Repr

/-- AnalysisUsage embeds the usage accumulator of an Analysis record
(wall-clock durations are environment-provided numbers). -/
structure AnalysisUsage where
  tokensConsumed : Nat := 0
  inputTokens : Nat := 0
  outputTokens : Nat := 0
  agentsUsed : Nat := 0
  filesAnalyzed : Nat := 0
  repoSizeBytes : Nat := 0
  durationMs : Nat := 0
  cacheHit : Bool := false
deriving DecidableEq, Repr

/-- Finding embeds the Finding interface; the id is a fresh uuid in the
source (external randomness, not observed by any analysed property) and
is modelled as the empty string. -/
structure Finding where
  id : Str := []
  agentType : Str
  findingType : FindingType
  severity : Str
  title : Str
  description : Str
  location : Option Str := none
  lineNumber : Option Nat := none
  recommendation : Option Str := none
deriving DecidableEq, Repr

/-- SecurityFinding embeds the SecurityFinding interface. -/
structure SecurityFinding where
  id : Str := []
  agentType : Str
  severity : Str
  title : Str
  description : Str
  location : Option Str := none
  lineNumber : Option Nat := none
  recommendation : Str
  cwe : Option Str := none
  owasp : Option Str := none
  cvss : Option ℚ := none
  remediation : Str
deriving DecidableEq, Repr

/-- Recommendation embeds the Recommendation interface. -/
structure Recommendation where
  category : FindingType
  priority : Str
  title : Str
  description : Str
  effort : Str
  impact : Str
deriving DecidableEq, Repr

/-- Component embeds one architecture component; the numeric metrics are
passed through from agent output. -/
structure Component where
  name : Str
  ctype : Str
  path : Str
  description : Str
  dependencies : List Str
  exports : List Str
  linesOfCode : Option ℚ := none
  complexity : Option ℚ := none
deriving DecidableEq, Repr

/-- DepGraph embeds the dependency graph of an architecture analysis;
its payloads are forwarded from agent output without inspection and are
modelled as opaque strings. -/
structure DepGraph where
  nodes : List Str := []
  edges : List Str := []
  externalDependencies : List Str := []
deriving DecidableEq, Repr

/-- ArchitectureAnalysis embeds the ArchitectureAnalysis interface;
layer payloads are forwarded without inspection. -/
structure ArchitectureAnalysis where
  pattern : Str
  patternConfidence : ℚ
  layers : List Str
  components : List Component
  dependencies : DepGraph
deriving DecidableEq, Repr

/-- RawFinding is the unknown-typed finding record inside agent output,
with every field optional, as the parse functions read it. -/
structure RawFinding where
  severity : Option Str := none
  title : Option Str := none
  name : Option Str := none
  description : Option Str := none
  location : Option Str := none
  lineNumber : Option Nat := none
  recommendation : Option Str := none
  remediation : Option Str := none
  cwe : Option Str := none
  owasp : Option Str := none
  cvss : Option ℚ := none
deriving DecidableEq, Repr

/-- RawComponent is the unknown-typed component record in agent output. -/
structure RawComponent where
  name : Option Str := none
  ctype : Option Str := none
  path : Option Str := none
  description : Option Str := none
  dependencies : Option (List Str) := none
  exports : Option (List Str) := none
  linesOfCode : Option ℚ := none
  complexity : Option ℚ := none
deriving DecidableEq, Repr

/-- RawRec is the unknown-typed recommendation record in agent output. -/
structure RawRec where
  priority : Option Str := none
  title : Option Str := none
  description : Option Str := none
  effort : Option Str := none
  impact : Option Str := none
deriving DecidableEq, Repr

/-- AgentOut is the parsed shape of an external reasoning-service
response as the synthesizer reads it; absent fields are none. -/
structure AgentOut where
  findings : Option (List RawFinding) := none
  issues : Option (List RawFinding) := none
  vulnerabilities : Option (List RawFinding) := none
  recommendations : Option (List RawRec) := none
  pattern : Option Str := none
  confidence : Option ℚ := none
  layers : Option (List Str) := none
  components : Option (List RawComponent) := none
  nodes : Option (List Str) := none
  edges : Option (List Str) := none
  externalDependencies : Option (List Str) := none
deriving DecidableEq, Repr

/-- AgentResult embeds the AgentResult interface; rtype is the field
named type (the category string), and the duration is not modelled. -/
structure AgentResult where
  taskId : Str
  rtype : FindingType
  success : Bool
  output : Option AgentOut
  tokensUsed : Nat
  error : Option Str := none
deriving DecidableEq, Repr

/-- RepositoryMetadata embeds the RepositoryMetadata interface. -/
structure RepositoryMetadata where
  sizeBytes : Nat := 0
  fileCount : Nat := 0
  directoryCount : Nat := 0
deriving DecidableEq, Repr

/-- RepositoryInfo embeds the RepositoryInfo interface. -/
structure RepositoryInfo where
  url : Str := []
  platform : Str := []
  owner : Str := []
  name : Str := []
  branch : Str := []
  commitHash : Option Str := none
deriving DecidableEq, Repr

/-- AnalysisResult embeds the AnalysisResult interface. -/
structure AnalysisResult where
  detectedType : RepositoryType
  techStack : List Str
  architecture : ArchitectureAnalysis
  findings : List Finding
  securityFindings : Option (List SecurityFinding)
  recommendations : List Recommendation
  archMd : Str
  repositoryInfo : RepositoryInfo
  repositoryMetadata : RepositoryMetadata
  directoryStructure : DirTree

/-- Analysis embeds the Analysis job record. -/
structure Analysis where
  id : Str
  userId : Str
  tenantId : Str
  repoUrl : Str
  repoName : Str
  branch : Str
  analysisDepth : Depth
  includeSecurity : Bool
  forceReanalysis : Bool
  status : AnalysisStatus
  progress : ℚ
  currentStep : Option Str := none
  usage : AnalysisUsage
  commitHash : Option Str := none
  result : Option AnalysisResult := none
  errorMessage : Option Str := none

/-- AnalysisRequest embeds the AnalysisRequest interface. -/
structure AnalysisRequest where
  repoUrl : Str
  branch : Option Str := none
  analysisDepth : Option Depth := none
  includeSecurityScan : Option Bool := none
  force : Option Bool := none
  webhookUrl : Option Str := none

/-- CloneResult embeds the RepositoryCloneResult interface. -/
structure CloneResult where
  success : Bool
  localPath : Str := []
  commitHash : Str := []
  branch : Str := []
  error : Option Str := none

/-- CacheEntry embeds the cache-service CacheEntry (the get method
already returns null for errors, misses and expired entries, so the
environment models its outcome as an optional entry). -/
structure CacheEntry where
  repoUrl : Str := []
  branch : Str := []
  commitHash : Str := []
  result : AnalysisResult

/-- MageResponse is the outcome of one external reasoning call: a
response body (already unwrapped into the AgentOut shape the parsers
read, possibly absent) with a token count, or an error or timeout. -/
inductive MageResponse where
  | ok (output : Option AgentOut) (tokens : Nat)
  | err (msg : Str)

/-- ParsedRepo embeds the RepositoryParseResult fields the orchestrator
uses. -/
structure ParsedRepo where
  isValid : Bool
  platform : Str := []
  owner : Str := []
  name : Str := []
  error : Option Str := none

/-- OrchEnv is the environment of one pipeline run: the outcome of each
external call (cache, clone, listing, reasoning service), the prompt
catalogue held by the engine, and the serialization and report helpers. -/
structure OrchEnv where
  newId : Str := []
  parse : ParsedRepo := { isValid := true }
  cacheGet : Option CacheEntry := none
  clone : CloneResult := { success := true }
  dirStructure : DirTree := .node [] [] true []
  files : List FileInfo := []
  metadata : RepositoryMetadata := {}
  detectEnv : DetectorEnv
  detectFuel : Nat := 1
  mage : Str → FindingType → Str → MageResponse
  prompts : RepositoryType → FindingType → List PromptConfig
  stringify : AgentOut → Str := fun _ => []
  generateMarkdown : AnalysisResult → Str := fun _ => []
  elapsedMs : Nat := 0

/-- Effect records one observable action of a pipeline run: a status
update as emitted to progress listeners, or one external call. -/
inductive Effect where
  | statusSet (st : AnalysisStatus) (progress : ℚ)
  | cacheGetCalled
  | cloneCalled
  | mageCalled (taskId : Str)
  | cacheSetCalled
  | webhookCalled (event : Str)
deriving DecidableEq, Repr

/-- updateStatusM embeds AnalysisOrchestrator.updateStatus, also
recording the emitted progress event. -/
def updateStatusM (a : Analysis) (tr : List Effect) (st : AnalysisStatus)
    (progress : ℚ) (step : Str) : Analysis × List Effect :=
  ({ a with status := st, progress := progress, currentStep := some step },
   tr ++ [.statusSet st progress])

/-- failAnalysisM embeds AnalysisOrchestrator.failAnalysis: the status
becomes failed with the message, the progress is left unchanged. -/
def failAnalysisM (a : Analysis) (tr : List Effect) (msg : Str) : Analysis × List Effect :=
  ({ a with status := .failed, errorMessage := some msg },
   tr ++ [.statusSet .failed a.progress])

/-- callMageAgent embeds AnalysisOrchestrator.callMageAgent: a response
yields a successful AgentResult carrying the (possibly absent) parsed
output, an error or timeout yields a failed result with zero tokens. -/
def callMageAgent (env : OrchEnv) (taskId : Str) (category : FindingType)
    (content : Str) : AgentResult :=
  match env.mage taskId category content with
  | .ok output tokens =>
    { taskId := taskId, rtype := category, success := true, output := output,
      tokensUsed := tokens }
  | .err msg =>
    { taskId := taskId, rtype := category, success := false, output := none,
      tokensUsed := 0, error := some msg }

/-- depthLimit is the file-count cap per requested depth. -/
def depthLimit : Depth → Nat
  | .quick => 20
  | .standard => 50
  | .deep => 100

/-- priorityExtensions from selectFilesForAnalysis. -/
def priorityExtensions : List Str :=
  [cs (".ts"), cs (".tsx"), cs (".js"), cs (".jsx"), cs (".py"), cs (".go"),
   cs (".rs"), cs (".java")]

/-- priorityNames from selectFilesForAnalysis. -/
def priorityNames : List Str :=
  [cs ("index"), cs ("main"), cs ("app"), cs ("server"), cs ("api"),
   cs ("routes"), cs ("controller")]

/-- fileScore is the priority score of one candidate file. -/
def fileScore (f : FileInfo) : ℤ :=
  let baseName := lowerStr (stripExtension (lastComponent f.path))
  (if priorityExtensions.contains f.extension then 10 else 0) +
  (if priorityNames.any (fun n => containsL baseName n) then 5 else 0) +
  (if containsL f.path ([ '/' ]) then 0 else 3) -
  (splitLen '/' f.path : ℤ)

/-- selectFilesForAnalysis embeds the bounded priority-scored file
selection: small files scored, sorted descending, capped by depth. -/
def selectFilesForAnalysis (files : List FileInfo) (depth : Depth) : List Str :=
  let scored := (files.filter (fun f => f.size < 500000)).map (fun f => (f, fileScore f))
  let sorted := sortCmp (fun a b => ((b.2 - a.2 : ℤ) : ℚ)) scored
  (sorted.take (depthLimit depth)).map (fun e => e.1.path)

/-- configPatterns is the fixed configuration-file list of getConfigFiles. -/
def configPatterns : List Str :=
  [cs ("package.json"), cs ("tsconfig.json"), cs ("webpack.config.js"),
   cs ("vite.config.ts"), cs ("next.config.js"), cs (".eslintrc.json"),
   cs ("requirements.txt"), cs ("go.mod"), cs ("Cargo.toml"),
   cs ("docker-compose.yml"), cs ("Dockerfile")]

/-- getConfigFiles embeds AnalysisOrchestrator.getConfigFiles. -/
def getConfigFiles (env : OrchEnv) (localPath : Str) : List (Str × Str) :=
  configPatterns.foldl (fun contents pattern =>
    match env.detectEnv.readFile localPath pattern with
    | some content => contents ++ [(pattern, content)]
    | none => contents) []

/-- indentOf is the two-space indent of formatStructure. -/
def indentOf (depth : Nat) : Str := List.replicate (2 * depth) ' '

/-- formatStructureF embeds AnalysisOrchestrator.formatStructure with
fuel equal to the remaining depth budget; at exhausted fuel the source
returns the empty string. -/
def formatStructureF : Nat → DirTree → Nat → Str
  | 0, _, _ => []
  | Nat.succ fuel, t, depth =>
    indentOf depth ++ t.name ++ (if t.isDir then [ '/' ] else []) ++ [ '\n' ] ++
    (t.children.take 50).foldl (fun acc c => acc ++ formatStructureF fuel c (depth + 1)) []

/-- formatStructure runs formatStructureF with the fixed maxDepth 4. -/
def formatStructure (t : DirTree) : Str := formatStructureF 5 t 0

/-- categoriesList is the fixed category order of runAgents. -/
def categoriesList : List FindingType :=
  [.architecture, .security, .performance, .documentation, .testing, .maintainability]

/-- findingTypeStr maps a category to its source string literal. -/
def findingTypeStr : FindingType → Str
  | .architecture => cs ("architecture")
  | .security => cs ("security")
  | .performance => cs ("performance")
  | .documentation => cs ("documentation")
  | .testing => cs ("testing")
  | .maintainability => cs ("maintainability")

/-- AgentsState is the loop state of runAgents: accumulated results, the
execution context with its growing dependency chain, the job record with
its usage counters, the emitted effects, and the progress base. -/
structure AgentsState where
  results : List AgentResult
  context : PromptContext
  analysis : Analysis
  trace : List Effect
  progressBase : ℚ

/-- runAgentsPromptStep is the body of the inner prompt loop of
AnalysisOrchestrator.runAgents: render against the current context, call
the reasoning service, add the usage, and on success append the
stringified output to the dependency chain before the next render. -/
def runAgentsPromptStep (env : OrchEnv) (category : FindingType)
    (st : AgentsState) (prompt : PromptConfig) : AgentsState :=
  let rendered := renderPrompt prompt st.context
  let result := callMageAgent env prompt.id category rendered.content
  let a := { st.analysis with
    usage := { st.analysis.usage with
      tokensConsumed := st.analysis.usage.tokensConsumed + result.tokensUsed,
      agentsUsed := st.analysis.usage.agentsUsed + 1 } }
  let ctx :=
    match result.output with
    | some o =>
      if result.success then
        { st.context with
          previousContext := setKey st.context.previousContext prompt.id (env.stringify o) }
      else st.context
    | none => st.context
  { st with
    results := st.results ++ [result],
    context := ctx,
    analysis := a,
    trace := st.trace ++ [.mageCalled prompt.id] }

/-- runAgentsCategoryStep is the body of the outer category loop of
runAgents: the security skip and the empty-catalogue skip both leave the
progress base untouched (continue precedes the increment). -/
def runAgentsCategoryStep (env : OrchEnv) (repoType : RepositoryType)
    (includeSecurityScan : Bool) (st : AgentsState) (category : FindingType) :
    AgentsState :=
  if category = .security ∧ includeSecurityScan = false then st
  else
    let categoryPrompts := env.prompts repoType category
    if categoryPrompts.isEmpty then st
    else
      let (a1, tr1) := updateStatusM st.analysis st.trace .analyzing st.progressBase
        (cs ("Analyzing ") ++ findingTypeStr category ++ cs ("..."))
      let st1 := { st with analysis := a1, trace := tr1 }
      let sorted := sortCmp (fun a b => ((a.order - b.order : ℤ) : ℚ)) categoryPrompts
      let st2 := sorted.foldl (runAgentsPromptStep env category) st1
      { st2 with progressBase := st2.progressBase + 50 / (categoriesList.length : ℚ) }

/-- runAgents embeds AnalysisOrchestrator.runAgents: build the initial
execution context, then run every category in the fixed order. -/
def runAgents (env : OrchEnv) (a : Analysis) (tr : List Effect) (localPath : Str)
    (typeResult : TypeDetectionResult) (structure_ : DirTree) (files : List FileInfo)
    (includeSecurityScan : Bool) (depth : Depth) : AgentsState :=
  let sourceFiles := selectFilesForAnalysis files depth
  let fileContents := sourceFiles.foldl (fun m p =>
    match env.detectEnv.readFile localPath p with
    | some c => m ++ [(p, c)]
    | none => m) []
  let ctx0 : PromptContext :=
    { repoUrl := a.repoUrl, repoName := a.repoName, branch := a.branch,
      commitHash := a.commitHash.getD [], repoType := typeResult.primaryType,
      techStack := typeResult.techStack,
      directoryStructure := formatStructure structure_,
      fileList := files.map (fun f => f.path),
      fileContents := fileContents,
      configFiles := getConfigFiles env localPath,
      previousContext := [] }
  categoriesList.foldl
    (runAgentsCategoryStep env typeResult.primaryType includeSecurityScan)
    { results := [], context := ctx0, analysis := a, trace := tr, progressBase := 30 }

/-- parseArchitectureResult embeds the arch-overview merge: each present
field overrides the current architecture model. -/
def parseArchitectureResult (output : AgentOut) (current : ArchitectureAnalysis) :
    ArchitectureAnalysis :=
  { current with
    pattern := output.pattern.getD current.pattern,
    patternConfidence := output.confidence.getD current.patternConfidence,
    layers := output.layers.getD current.layers }

/-- parseComponents embeds AnalysisOrchestrator.parseComponents: a
missing or non-array components field yields the empty list, otherwise
each record is coerced with its defaults. -/
def parseComponents (output : AgentOut) : List Component :=
  match output.components with
  | none => []
  | some comps => comps.map (fun c =>
    { name := c.name.getD [],
      ctype := c.ctype.getD (cs ("module")),
      path := c.path.getD [],
      description := c.description.getD [],
      dependencies := c.dependencies.getD [],
      exports := c.exports.getD [],
      linesOfCode := c.linesOfCode,
      complexity := c.complexity })

/-- parseDependencies embeds AnalysisOrchestrator.parseDependencies. -/
def parseDependencies (output : AgentOut) : DepGraph :=
  { nodes := output.nodes.getD [],
    edges := output.edges.getD [],
    externalDependencies := output.externalDependencies.getD [] }

/-- parseSecurityFindings embeds the security-finding coercion; the
findings field wins over vulnerabilities (an empty array is truthy). -/
def parseSecurityFindings (output : AgentOut) (agentType : Str) : List SecurityFinding :=
  let findings :=
    match output.findings with
    | some l => l
    | none => output.vulnerabilities.getD []
  findings.map (fun f =>
    { agentType := agentType,
      severity := f.severity.getD (cs ("medium")),
      title := jsOrStr f.title (f.name.getD []),
      description := f.description.getD [],
      location := f.location,
      lineNumber := f.lineNumber,
      recommendation := jsOrStr f.recommendation (f.remediation.getD []),
      cwe := f.cwe,
      owasp := f.owasp,
      cvss := f.cvss,
      remediation := jsOrStr f.remediation (f.recommendation.getD []) })

/-- parseFindings embeds the general finding coercion; the findings
field wins over issues. -/
def parseFindings (output : AgentOut) (findingType : FindingType) (agentType : Str) :
    List Finding :=
  let findings :=
    match output.findings with
    | some l => l
    | none => output.issues.getD []
  findings.map (fun f =>
    { agentType := agentType,
      findingType := findingType,
      severity := f.severity.getD (cs ("info")),
      title := jsOrStr f.title (f.name.getD []),
      description := f.description.getD [],
      location := f.location,
      lineNumber := f.lineNumber,
      recommendation := f.recommendation })

/-- parseRecommendations embeds the recommendation coercion. -/
def parseRecommendations (recs : List RawRec) (category : FindingType) :
    List Recommendation :=
  recs.map (fun r =>
    { category := category,
      priority := r.priority.getD (cs ("medium")),
      title := r.title.getD [],
      description := r.description.getD [],
      effort := r.effort.getD (cs ("medium")),
      impact := r.impact.getD (cs ("medium")) })

/-- SynthState is the accumulator of the synthesizer loop. -/
structure SynthState where
  architecture : ArchitectureAnalysis
  findings : List Finding
  securityFindings : List SecurityFinding
  recommendations : List Recommendation

/-- synthStep processes one agent result in
AnalysisOrchestrator.synthesizeResults: failed or output-less results
are skipped, architecture tasks update the model by task id, security
tasks extend the security findings, the other categories extend the
general findings, and any recommendations field contributes. -/
def synthStep (st : SynthState) (result : AgentResult) : SynthState :=
  if result.success = false then st
  else match result.output with
  | none => st
  | some output =>
    let st1 :=
      match result.rtype with
      | .architecture =>
        if result.taskId = cs ("arch-overview") then
          { st with architecture := parseArchitectureResult output st.architecture }
        else if result.taskId = cs ("arch-components") then
          { st with architecture := { st.architecture with components := parseComponents output } }
        else if result.taskId = cs ("arch-dependencies") then
          { st with architecture := { st.architecture with dependencies := parseDependencies output } }
        else st
      | .security =>
        { st with securityFindings :=
            st.securityFindings ++ parseSecurityFindings output result.taskId }
      | _ =>
        { st with findings := st.findings ++ parseFindings output result.rtype result.taskId }
    match output.recommendations with
    | some recs =>
      { st1 with recommendations :=
          st1.recommendations ++ parseRecommendations recs result.rtype }
    | none => st1

/-- initialArchitecture is the synthesizer's starting model. -/
def initialArchitecture : ArchitectureAnalysis :=
  { pattern := cs ("unknown"), patternConfidence := 0, layers := [],
    components := [], dependencies := {} }

/-- synthesizeResults embeds AnalysisOrchestrator.synthesizeResults. -/
def synthesizeResults (a : Analysis) (typeResult : TypeDetectionResult)
    (structure_ : DirTree) (metadata : RepositoryMetadata)
    (agentResults : List AgentResult) : AnalysisResult :=
  let st := agentResults.foldl synthStep
    { architecture := initialArchitecture, findings := [],
      securityFindings := [], recommendations := [] }
  { detectedType := typeResult.primaryType,
    techStack := typeResult.techStack,
    architecture := st.architecture,
    findings := st.findings,
    securityFindings := if a.includeSecurity then some st.securityFindings else none,
    recommendations := st.recommendations,
    archMd := [],
    repositoryInfo := {},
    repositoryMetadata := metadata,
    directoryStructure := structure_ }

/-- runAnalysisMain is the body of the try block of
AnalysisOrchestrator.runAnalysis after the cache check: clone, detect,
run the agents, synthesize, generate, complete, cache and notify.  The
only exception reachable in the embedded pipeline is the explicit clone
failure; every later stage is a total function, so the catch branch of
the source corresponds exactly to the clone-failure branch here. -/
def runAnalysisMain (env : OrchEnv) (req : AnalysisRequest) (a0 : Analysis)
    (tr0 : List Effect) : Analysis × List Effect :=
  let (a1, tr1) := updateStatusM a0 tr0 .cloning 10 (cs ("Cloning repository..."))
  let tr2 := tr1 ++ [.cloneCalled]
  if env.clone.success = false then
    let (a2, tr3) := failAnalysisM a1 tr2
      (cs ("Failed to clone repository: ") ++ env.clone.error.getD [])
    let tr4 :=
      if req.webhookUrl.isSome then tr3 ++ [.webhookCalled (cs ("analysis.failed"))]
      else tr3
    (a2, tr4)
  else
    let localPath := env.clone.localPath
    let a1b := { a1 with commitHash := some env.clone.commitHash, branch := env.clone.branch }
    let (a2, tr3) := updateStatusM a1b tr2 .detecting 20
      (cs ("Analyzing project structure..."))
    let typeResult := detect env.detectEnv env.detectFuel localPath env.dirStructure env.files
    let a2b := { a2 with usage := { a2.usage with
      filesAnalyzed := env.files.length, repoSizeBytes := env.metadata.sizeBytes } }
    let (a3, tr4) := updateStatusM a2b tr3 .analyzing 30 (cs ("Running AI analysis..."))
    let ag := runAgents env a3 tr4 localPath typeResult env.dirStructure env.files
      a3.includeSecurity a3.analysisDepth
    let (a4, tr5) := updateStatusM ag.analysis ag.trace .synthesizing 80
      (cs ("Synthesizing findings..."))
    let synthesized := synthesizeResults a4 typeResult env.dirStructure env.metadata ag.results
    let (a5, tr6) := updateStatusM a4 tr5 .generating 90
      (cs ("Generating documentation..."))
    let synthesized2 := { synthesized with
      archMd := env.generateMarkdown synthesized,
      repositoryInfo :=
        { url := req.repoUrl, platform := env.parse.platform, owner := env.parse.owner,
          name := env.parse.name, branch := a5.branch, commitHash := a5.commitHash },
      repositoryMetadata := env.metadata,
      directoryStructure := env.dirStructure }
    let a6 := { a5 with
      status := .completed, progress := 100,
      result := some synthesized2,
      usage := { a5.usage with durationMs := env.elapsedMs } }
    let tr7 := tr6 ++ [.cacheSetCalled, .statusSet .completed 100]
    let tr8 :=
      if req.webhookUrl.isSome then tr7 ++ [.webhookCalled (cs ("analysis.completed"))]
      else tr7
    (a6, tr8)

/-- runAnalysis embeds AnalysisOrchestrator.runAnalysis: unless a forced
refresh was requested, a cache hit short-circuits to completed with the
cache-hit flag; otherwise the pipeline body runs. -/
def runAnalysis (env : OrchEnv) (req : AnalysisRequest) (a0 : Analysis) :
    Analysis × List Effect :=
  if req.force.getD false = false then
    match env.cacheGet with
    | some cached =>
      ({ a0 with
         status := .completed, progress := 100,
         result := some cached.result,
         usage := { a0.usage with cacheHit := true, durationMs := env.elapsedMs } },
       [.cacheGetCalled, .statusSet .completed 100])
    | none => runAnalysisMain env req a0 [.cacheGetCalled]
  else runAnalysisMain env req a0 []

/-- emptyUsage is the zeroed usage record of a new analysis. -/
def emptyUsage : AnalysisUsage := {}

/-- buildAnalysis is the Analysis record literal of
AnalysisOrchestrator.startAnalysis, before any pipeline step. -/
def buildAnalysis (env : OrchEnv) (req : AnalysisRequest) (userId tenantId : Str) :
    Analysis :=
  { id := env.newId,
    userId := userId,
    tenantId := tenantId,
    repoUrl := req.repoUrl,
    repoName := env.parse.owner ++ [ '/' ] ++ env.parse.name,
    branch := req.branch.getD (cs ("main")),
    analysisDepth := req.analysisDepth.getD .standard,
    includeSecurity := decide (req.includeSecurityScan ≠ some false),
    forceReanalysis := req.force.getD false,
    status := .queued,
    progress := 0,
    usage := emptyUsage }

/-- runAnalysisSyncPrefix is the part of runAnalysis that executes
synchronously before startAnalysis returns: a JavaScript async function
runs its body up to the first await when called.  With force unset the
first await is the cache lookup, reached before any mutation of the job
record; with force set the cache check is skipped and updateStatus
already moves the record to cloning at progress 10 before the await on
the clone call suspends the body. -/
def runAnalysisSyncPrefix (force : Bool) (a : Analysis) : Analysis :=
  if force then
    { a with
      status := .cloning, progress := 10,
      currentStep := some (cs ("Cloning repository...")) }
  else a

/-- startAnalysis embeds AnalysisOrchestrator.startAnalysis: an invalid
repository url throws, otherwise the queued record is registered and the
pipeline is started without awaiting it; the returned record reflects
the synchronously executed prefix of the pipeline. -/
def startAnalysis (env : OrchEnv) (req : AnalysisRequest) (userId tenantId : Str) :
    Except Str Analysis :=
  if env.parse.isValid = false then
    .error (cs ("Invalid repository URL: ") ++ env.parse.error.getD [])
  else
    .ok (runAnalysisSyncPrefix (req.force.getD false)
      (buildAnalysis env req userId tenantId))

/-- IsPreP p s states that p is a leading segment of s. -/
def IsPreP (p s : Str) : Prop := ∃ t, s = p ++ t

/-- IsSufP p s states that p is a trailing segment of s. -/
def IsSufP (p s : Str) : Prop := ∃ t, s = t ++ p

/-- IsSub p s states that p occurs contiguously inside s. -/
def IsSub (p s : Str) : Prop := ∃ u v, s = u ++ (p ++ v)

/-- CSI pat seg states that no occurrence of pat can begin inside an
occurrence of seg: for every nonempty trailing segment of seg, pat
neither starts it nor is started by it.  This is the separation fact
that makes one replacement pass unable to destroy an occurrence of seg. -/
def CSI (pat seg : Str) : Prop :=
  ∀ s', IsSufP s' seg → s' ≠ [] → ¬ IsPreP pat s' ∧ ¬ IsPreP s' pat

/-- CleanChar states that a character is none of the two braces and not
the opening square bracket of the not-available marker. -/
@[reducible] def CleanChar (c : Char) : Prop := c ≠ lbrace ∧ c ≠ rbrace ∧ c ≠ '['

/-- CleanName states that a variable name is nonempty and made of clean
characters, as every declared variable name in the catalogue is. -/
@[reducible] def CleanName (s : Str) : Prop := s ≠ [] ∧ ∀ c ∈ s, CleanChar c

/-- beats s a b states that the detector's sort comparator orders type a
strictly before type b under the score assignment s. -/
@[reducible] def beats (s : RepositoryType → ℚ) (a b : RepositoryType) : Prop :=
  cmpEntries (a, s a) (b, s b) < 0

/-- statusesOf projects the status updates out of an effect trace. -/
def statusesOf (tr : List Effect) : List AnalysisStatus :=
  tr.filterMap (fun e =>
    match e with
    | .statusSet st _ => some st
    | _ => none)

/-- promptIds projects the id list of a prompt list. -/
def promptIds (l : List PromptConfig) : List Str := l.map (fun p => p.id)

/-- allCataloguePromptIds collects every prompt id the engine can hand to
runAgents for a repository type, across the fixed category order. -/
def allCataloguePromptIds (env : OrchEnv) (rt : RepositoryType) : List Str :=
  categoriesList.foldl (fun acc c => acc ++ promptIds (env.prompts rt c)) []

/-- emptyDetectorEnv is a source access layer with no readable files. -/
def emptyDetectorEnv : DetectorEnv :=
  { readFile := fun _ _ => none,
    parsePkg := fun _ => none,
    getFiles := fun _ => [],
    getDirectoryStructure := fun _ _ => .node [] [] true [] }

/-- tfFiles is the file listing of a repository whose only file is
main.tf. -/
def tfFiles : List FileInfo :=
  [{ path := cs ("main.tf"), name := cs ("main.tf"), extension := cs (".tf"), size := 100 }]

/-- tfTree is the directory tree of that repository. -/
def tfTree : DirTree :=
  .node [] (cs ("repo")) true [.node (cs ("main.tf")) (cs ("main.tf")) false []]

/-- promptA has no dependencies. -/
def promptA : PromptConfig := { id := cs ("a") }

/-- promptB depends on promptA. -/
def promptB : PromptConfig := { id := cs ("b"), contextRequired := [cs ("a")] }

/-- promptC depends on promptB. -/
def promptC : PromptConfig := { id := cs ("c"), contextRequired := [cs ("b")] }

/-- cycA and cycB form the two-task dependency cycle. -/
def cycA : PromptConfig := { id := cs ("a"), contextRequired := [cs ("b")] }

/-- cycB is the second half of the cycle. -/
def cycB : PromptConfig := { id := cs ("b"), contextRequired := [cs ("a")] }

/-- scoresCx is a normalized score assignment on which the pairwise
preference of the detector's comparator is cyclic. -/
def scoresCx : RepositoryType → ℚ
  | .backend => 1
  | .frontend => 23 / 25
  | .infraAsCode => 17 / 20
  | _ => 0

/-- trivialMage is a reasoning service that always fails. -/
def trivialMage : Str → FindingType → Str → MageResponse := fun _ _ _ => .err []

/-- emptyCatalogue is a prompt engine with no prompts. -/
def emptyCatalogue : RepositoryType → FindingType → List PromptConfig := fun _ _ => []

/-- baseOrchEnv is a minimal pipeline environment. -/
def baseOrchEnv : OrchEnv :=
  { detectEnv := emptyDetectorEnv, mage := trivialMage, prompts := emptyCatalogue }

/-- forcedRequest is an analysis request with the force flag set. -/
def forcedRequest : AnalysisRequest := { repoUrl := cs ("https://g/o/r"), force := some true }

/-- readmePrompt is a catalogue-shaped prompt whose whole template is
the readme placeholder. -/
def readmePrompt : PromptConfig :=
  { id := cs ("docs-analysis"),
    template := cs ("\x7b\x7breadme\x7d\x7d"),
    vars := [{ name := cs ("readme"), vtype := cs ("file_content") }] }

/-- emptyPromptCtx is an execution context with no file contents. -/
def emptyPromptCtx : PromptContext := {}

/-- witPrompt is a prompt declaring one variable that no context
resolves, with surrounding literal text. -/
def witPrompt : PromptConfig :=
  { id := cs ("wit"),
    template := cs ("Analyze \x7b\x7bunknownVar\x7d\x7d now"),
    vars := [{ name := cs ("unknownVar"), vtype := cs ("string") }] }

/-- perfPrompt builds one performance-category prompt with an empty
template for the five-task scenario. -/
def perfPrompt (i : String) : PromptConfig := { id := cs i, category := .performance }

/-- fiveTaskCatalogue serves five performance prompts. -/
def fiveTaskCatalogue : RepositoryType → FindingType → List PromptConfig :=
  fun _ c =>
    if c = FindingType.performance then
      [perfPrompt ("t1"), perfPrompt ("t2"), perfPrompt ("t3"),
       perfPrompt ("t4"), perfPrompt ("t5")]
    else []

/-- oneFindingOut is an agent output with one finding. -/
def oneFindingOut : AgentOut := { findings := some [{ title := some (cs ("F")) }] }

/-- failT3Mage succeeds with one finding everywhere except task t3,
which times out. -/
def failT3Mage : Str → FindingType → Str → MageResponse :=
  fun tid _ _ =>
    if tid = cs ("t3") then .err (cs ("timeout")) else .ok (some oneFindingOut) 7

/-- witEnvC6 is the concrete environment of the five-task scenario. -/
def witEnvC6 : OrchEnv :=
  { detectEnv := emptyDetectorEnv, mage := failT3Mage, prompts := fiveTaskCatalogue }

/-- plainRequest is an analysis request with every toggle defaulted. -/
def plainRequest : AnalysisRequest := { repoUrl := cs ("https://g/o/r") }

/-- witAnalysisC6 is the queued record of the five-task scenario. -/
def witAnalysisC6 : Analysis := buildAnalysis witEnvC6 plainRequest (cs ("u1")) (cs ("tn1"))

/-- failCloneEnv is an environment whose clone step fails. -/
def failCloneEnv : OrchEnv :=
  { baseOrchEnv with clone := { success := false, error := some (cs ("repository not found")) } }

/-- witAnalysisC7 is the queued record of the clone-failure scenario. -/
def witAnalysisC7 : Analysis := buildAnalysis failCloneEnv plainRequest (cs ("u1")) (cs ("tn1"))

/-- cachedResultC8 is a cached analysis result for the cache-hit
scenario. -/
def cachedResultC8 : AnalysisResult :=
  { detectedType := .backend, techStack := [], architecture := initialArchitecture,
    findings := [], securityFindings := none, recommendations := [], archMd := [],
    repositoryInfo := {}, repositoryMetadata := {},
    directoryStructure := .node [] [] true [] }

/-- cacheHitEnv is an environment whose cache lookup hits. -/
def cacheHitEnv : OrchEnv :=
  { baseOrchEnv with cacheGet := some { result := cachedResultC8 } }

/-- witAnalysisC8 is the queued record of the cache-hit scenario. -/
def witAnalysisC8 : Analysis := buildAnalysis cacheHitEnv plainRequest (cs ("u1")) (cs ("tn1"))

/-- witIndicator is a single file indicator used to instantiate the
score-normalization theorem. -/
def witIndicator : TypeIndicator :=
  { source := .file, name := cs ("main.tf"), confidence := 7 / 10,
    suggestedType := .infraAsCode }

/-- AgentsInv is the loop invariant of runAgents for a distinguished
failing task: every recorded result carries a task id drawn from the
catalogue of the analysed repository type, any result of the failing
task is marked unsuccessful, and the dependency chain holds no entry
keyed by the failing task. -/
def AgentsInv (env : OrchEnv) (rt : RepositoryType) (failedId : Str)
    (st : AgentsState) : Prop :=
  (∀ r ∈ st.results, r.taskId ∈ allCataloguePromptIds env rt ∧
    (r.taskId = failedId → r.success = false)) ∧
  (∀ kv ∈ st.context.previousContext, kv.1 ≠ failedId)

/-- C9: classifying a repository whose only signal is a file named
main.tf yields primary type infra-as-code with confidence 1, at or above
any fixed minimum threshold (in particular 0.3). -/
theorem detect_mainTf_infraAsCode :
    (detect emptyDetectorEnv 1 (cs ("/repo")) tfTree tfFiles).primaryType = .infraAsCode ∧
    (detect emptyDetectorEnv 1 (cs ("/repo")) tfTree tfFiles).confidence = 1 ∧
    (3 : ℚ) / 10 ≤ (detect emptyDetectorEnv 1 (cs ("/repo")) tfTree tfFiles).confidence := by
  refine ⟨by decide, by decide, by decide⟩

/-- C10: for every classification run, the reported indicators are
exactly the collected indicators whose confidence exceeds 0.3. -/
theorem detect_indicators_filtered :
    ∀ (env : DetectorEnv) (fuel : Nat) (lp : Str) (tree : DirTree) (fs : List FileInfo),
      (detect env fuel lp tree fs).indicators =
        (detectFromFiles fs ++ detectFromDependencies env lp ++
          detectFromStructure tree).filter (fun i => 3 / 10 < i.confidence) ∧
      ∀ i, i ∈ (detect env fuel lp tree fs).indicators ↔
        (i ∈ detectFromFiles fs ++ detectFromDependencies env lp ++
          detectFromStructure tree ∧ 3 / 10 < i.confidence) := by
  intro env fuel lp tree fs
  have h : (detect env fuel lp tree fs).indicators =
      (detectFromFiles fs ++ detectFromDependencies env lp ++
        detectFromStructure tree).filter (fun i => 3 / 10 < i.confidence) := by
    cases fuel <;> simp [detect, detectCore]
  refine ⟨h, fun i => ?_⟩
  rw [h]
  simp only [List.mem_filter, List.mem_append, decide_eq_true_eq]

/-- C3: for tasks A (no deps), B (depends on A), C (depends on B), the
dependency resolver returns the order A, B, C for every input order; and
for the two-task cycle A to B to A it returns each task exactly once,
dropping the cyclic back-edge instead of raising. -/
theorem resolver_order_and_cycle :
    (∀ l ∈ [[promptA, promptB, promptC], [promptA, promptC, promptB],
            [promptB, promptA, promptC], [promptB, promptC, promptA],
            [promptC, promptA, promptB], [promptC, promptB, promptA]],
      resolvePromptDependencies l = [promptA, promptB, promptC]) ∧
    (∀ l ∈ [[cycA, cycB], [cycB, cycA]],
      (promptIds (resolvePromptDependencies l)).count (cs ("a")) = 1 ∧
      (promptIds (resolvePromptDependencies l)).count (cs ("b")) = 1) := by
  refine ⟨?_, ?_⟩ <;> decide

/-- Witness for the resolver theorem: on the reversed input the order
comes out as A, B, C, and the cycle keeps both tasks exactly once. -/
theorem resolver_order_and_cycle_witness :
    resolvePromptDependencies [promptC, promptB, promptA] = [promptA, promptB, promptC] ∧
    (promptIds (resolvePromptDependencies [cycA, cycB])).count (cs ("a")) = 1 :=
  ⟨resolver_order_and_cycle.1 [promptC, promptB, promptA] (by decide),
   (resolver_order_and_cycle.2 [cycA, cycB] (by decide)).1⟩

/-- C4, counterexample: with force set on a valid request, startAnalysis
returns a job already moved to cloning at progress 10 by the
synchronously executed prefix of the pipeline, so the returned job is
not queued at progress 0 as claimed. -/
theorem startAnalysis_forced_not_queued :
    (startAnalysis baseOrchEnv forcedRequest (cs ("u1")) (cs ("tn1"))).toOption.map
        (fun a => (a.status, a.progress)) = some (.cloning, 10) ∧
    ((AnalysisStatus.cloning, (10 : ℚ)) ≠ (AnalysisStatus.queued, (0 : ℚ))) := by
  refine ⟨by decide, by decide⟩

/-- C4, amended: for every request without a forced refresh (force
absent or false) on a valid repository url, startAnalysis returns a job
with status queued and progress 0; with force set, the synchronous
prefix of the pipeline already advances the returned job to cloning at
progress 10, and pipeline execution proceeds independently either way. -/
theorem startAnalysis_unforced_queued :
    ∀ (env : OrchEnv) (req : AnalysisRequest) (u t : Str) (a : Analysis),
      (req.force = none ∨ req.force = some false) →
      startAnalysis env req u t = .ok a →
      a.status = .queued ∧ a.progress = 0 ∧ a.usage.cacheHit = false := by
  intro env req u t a hf h
  unfold startAnalysis at h
  split at h
  · cases h
  · have hforce : req.force.getD false = false := by
      rcases hf with hf | hf <;> simp [hf]
    rw [hforce] at h
    cases h
    simp [runAnalysisSyncPrefix, buildAnalysis, emptyUsage]

/-- Witness for the amended startAnalysis theorem at a concrete
unforced request. -/
theorem startAnalysis_unforced_queued_witness :
    (buildAnalysis baseOrchEnv plainRequest (cs ("u1")) (cs ("tn1"))).status = .queued ∧
    (buildAnalysis baseOrchEnv plainRequest (cs ("u1")) (cs ("tn1"))).progress = 0 ∧
    (buildAnalysis baseOrchEnv plainRequest (cs ("u1")) (cs ("tn1"))).usage.cacheHit = false :=
  startAnalysis_unforced_queued baseOrchEnv plainRequest (cs ("u1")) (cs ("tn1"))
    (buildAnalysis baseOrchEnv plainRequest (cs ("u1")) (cs ("tn1"))) (Or.inl rfl) rfl

/-- C2, counterexample: under the score assignment with backend 1,
frontend 0.92 and infra-as-code 0.85, the comparator's pairwise
preference is cyclic (frontend before backend, infra-as-code before
frontend, backend before infra-as-code), so the stated rule does not
determine a unique winner for every score assignment. -/
theorem comparator_preference_cycle :
    beats scoresCx .frontend .backend ∧
    beats scoresCx .infraAsCode .frontend ∧
    beats scoresCx .backend .infraAsCode ∧
    ¬ ∃ t, 0 < scoresCx t ∧ ∀ u, 0 < scoresCx u → u ≠ t → beats scoresCx t u := by
  refine ⟨by decide, by decide, by decide, by decide⟩

/-- Every repository type is listed in allTypes. -/
theorem mem_allTypes (t : RepositoryType) : t ∈ allTypes := by
  cases t <;> simp [allTypes]

/-- jsMax dominates its left argument. -/
theorem le_jsMax_left (a b : ℚ) : a ≤ jsMax a b := by
  unfold jsMax
  split
  · assumption
  · exact le_refl a

/-- jsMax dominates its right argument. -/
theorem le_jsMax_right (a b : ℚ) : b ≤ jsMax a b := by
  unfold jsMax
  split
  · exact le_refl b
  · exact le_of_not_le (by assumption)

/-- The seed of a jsMax fold bounds the fold from below. -/
theorem init_le_foldr_jsMax (init : ℚ) (l : List ℚ) : init ≤ l.foldr jsMax init := by
  induction l with
  | nil => exact le_refl init
  | cons c rest ih => exact le_trans ih (le_jsMax_right c (rest.foldr jsMax init))

/-- Every member of a list bounds its jsMax fold from below. -/
theorem mem_le_foldr_jsMax (init : ℚ) (l : List ℚ) (a : ℚ) (ha : a ∈ l) :
    a ≤ l.foldr jsMax init := by
  induction l with
  | nil => cases ha
  | cons c rest ih =>
    rcases List.mem_cons.mp ha with rfl | hmem
    · exact le_jsMax_left a (rest.foldr jsMax init)
    · exact le_trans (ih hmem) (le_jsMax_right c (rest.foldr jsMax init))

/-- The normalization floor keeps the maximum score positive. -/
theorem maxScoreOf_pos (inds : List TypeIndicator) : 0 < maxScoreOf inds :=
  lt_of_lt_of_le (by norm_num) (init_le_foldr_jsMax (1 / 100) _)

/-- Every raw score is bounded by the maximum score. -/
theorem rawScores_le_maxScoreOf (inds : List TypeIndicator) (t : RepositoryType) :
    rawScores inds t ≤ maxScoreOf inds :=
  mem_le_foldr_jsMax _ _ _ (List.mem_map.mpr ⟨t, mem_allTypes t, rfl⟩)

/-- Detection weights are nonnegative. -/
theorem DETECTION_WEIGHTS_nonneg (s : IndicatorSource) : 0 ≤ DETECTION_WEIGHTS s := by
  cases s <;> norm_num [DETECTION_WEIGHTS]

/-- A score fold over indicators with nonnegative confidences keeps
every type's accumulated score nonnegative. -/
theorem rawScores_fold_nonneg (inds : List TypeIndicator) :
    ∀ (f : RepositoryType → ℚ), (∀ i ∈ inds, 0 ≤ i.confidence) → (∀ t, 0 ≤ f t) →
    ∀ t, 0 ≤ List.foldl
      (fun s i t =>
        if t = i.suggestedType then s t + i.confidence * DETECTION_WEIGHTS i.source
        else s t) f inds t := by
  induction inds with
  | nil => intro f _ hf t; exact hf t
  | cons i rest ih =>
    intro f hconf hf t
    refine ih _ (fun j hj => hconf j (List.mem_cons_of_mem i hj)) ?_ t
    intro u
    by_cases hu : u = i.suggestedType
    · subst hu
      have h1 : 0 ≤ i.confidence * DETECTION_WEIGHTS i.source :=
        mul_nonneg (hconf i (List.mem_cons_self i rest)) (DETECTION_WEIGHTS_nonneg i.source)
      simpa using add_nonneg (hf i.suggestedType) h1
    · simpa [hu] using hf u

/-- Raw scores are nonnegative for nonnegative indicator confidences. -/
theorem rawScores_nonneg (inds : List TypeIndicator)
    (h : ∀ i ∈ inds, 0 ≤ i.confidence) (t : RepositoryType) : 0 ≤ rawScores inds t :=
  rawScores_fold_nonneg inds _ h (fun _ => le_refl 0) t

/-- Normalized scores lie between zero and one for nonnegative
indicator confidences. -/
theorem calculateTypeScores_bounds (inds : List TypeIndicator)
    (h : ∀ i ∈ inds, 0 ≤ i.confidence) (t : RepositoryType) :
    0 ≤ calculateTypeScores inds t ∧ calculateTypeScores inds t ≤ 1 := by
  unfold calculateTypeScores
  constructor
  · exact div_nonneg (rawScores_nonneg inds h t) (le_of_lt (maxScoreOf_pos inds))
  · exact (div_le_one (maxScoreOf_pos inds)).mpr (rawScores_le_maxScoreOf inds t)

/-- Membership through insertCmp. -/
theorem mem_insertCmp {α : Type} (cmp : α → α → ℚ) (x z : α) (l : List α) :
    z ∈ insertCmp cmp x l ↔ z = x ∨ z ∈ l := by
  induction l with
  | nil => simp [insertCmp]
  | cons y ys ih =>
    unfold insertCmp
    split
    · simp
    · simp only [List.mem_cons, ih]
      tauto

/-- Membership through the modelled stable sort. -/
theorem mem_sortCmp {α : Type} (cmp : α → α → ℚ) (l : List α) (z : α) :
    z ∈ sortCmp cmp l ↔ z ∈ l := by
  suffices h : ∀ (rest acc : List α),
      z ∈ List.foldl (fun acc x => insertCmp cmp x acc) acc rest ↔ z ∈ acc ∨ z ∈ rest by
    unfold sortCmp
    simpa using h l []
  intro rest
  induction rest with
  | nil => simp
  | cons y ys ih =>
    intro acc
    simp only [List.foldl_cons, ih, mem_insertCmp, List.mem_cons]
    tauto

/-- A head of a list is a member. -/
theorem head?_mem {α : Type} {l : List α} {a : α} (h : l.head? = some a) : a ∈ l := by
  cases l with
  | nil => cases h
  | cons b t =>
    simp only [List.head?_cons, Option.some.injEq] at h
    exact h ▸ List.mem_cons_self b t

/-- The second component of a score entry is the score of the first. -/
theorem entry_snd_eq {ns : RepositoryType → ℚ} {e : RepositoryType × ℚ}
    (h : e ∈ allTypes.map (fun t => (t, ns t))) : e.2 = ns e.1 := by
  rcases List.mem_map.mp h with ⟨t, _, rfl⟩
  rfl

/-- Inserting an element that the comparator never places after itself
into a list headed by x keeps x at the head when the comparator refuses
to put the new element before x. -/
theorem sortCmp_head_dominant {α : Type} (cmp : α → α → ℚ) (l : List α) (x : α)
    (hx : x ∈ l) (hxx : ¬ cmp x x < 0)
    (hdom : ∀ y ∈ l, y ≠ x → cmp x y < 0 ∧ ¬ cmp y x < 0) :
    (sortCmp cmp l).head? = some x := by
  suffices h : ∀ (rest acc : List α),
      (∀ z ∈ rest, z ∈ l) → (∀ z ∈ acc, z ∈ l) →
      (x ∈ acc → acc.head? = some x) →
      (x ∈ acc ∨ x ∈ rest) →
      (List.foldl (fun acc y => insertCmp cmp y acc) acc rest).head? = some x by
    exact h l [] (fun z hz => hz) (fun z hz => absurd hz (List.not_mem_nil z))
      (fun hz => absurd hz (List.not_mem_nil x)) (Or.inr hx)
  intro rest
  induction rest with
  | nil =>
    intro acc _ _ hhead hmem
    rcases hmem with hmem | hmem
    · exact hhead hmem
    · cases hmem
  | cons y ys ih =>
    intro acc hrest hacc hhead hmem
    simp only [List.foldl_cons]
    refine ih (insertCmp cmp y acc)
      (fun z hz => hrest z (List.mem_cons_of_mem y hz))
      (fun z hz => ?_) (fun hz => ?_) ?_
    · rcases (mem_insertCmp cmp y z acc).mp hz with rfl | hz2
      · exact hrest z (List.mem_cons_self z ys)
      · exact hacc z hz2
    · by_cases hyx : y = x
      · subst hyx
        cases acc with
        | nil => rfl
        | cons b t =>
          unfold insertCmp
          split
          · rfl
          · by_cases hbx : b = y
            · subst hbx
              rfl
            · rcases hdom b (hacc b (List.mem_cons_self b t)) hbx with ⟨hlt, _⟩
              exact absurd hlt (by assumption)
      · have hxacc : x ∈ acc := by
          rcases (mem_insertCmp cmp y x acc).mp hz with rfl | hz2
          · exact absurd rfl hyx
          · exact hz2
        have hheadx := hhead hxacc
        cases acc with
        | nil => cases hxacc
        | cons b t =>
          have hbx : b = x := by
            simpa using hheadx
          subst hbx
          unfold insertCmp
          split
          · rcases hdom y (hrest y (List.mem_cons_self y ys)) hyx with ⟨_, hny⟩
            exact absurd (by assumption) hny
          · rfl
    · rcases hmem with hz | hz
      · exact Or.inl ((mem_insertCmp cmp y x acc).mpr (Or.inr hz))
      · rcases List.mem_cons.mp hz with rfl | hz2
        · exact Or.inl ((mem_insertCmp cmp x x acc).mpr (Or.inl rfl))
        · exact Or.inr hz2

/-- jsMin of a nonnegative pair is nonnegative. -/
theorem jsMin_nonneg {a b : ℚ} (ha : 0 ≤ a) (hb : 0 ≤ b) : 0 ≤ jsMin a b := by
  unfold jsMin
  split <;> assumption

/-- jsMin is bounded by its right argument. -/
theorem jsMin_le_right (a b : ℚ) : jsMin a b ≤ b := by
  unfold jsMin
  split
  · assumption
  · exact le_refl b

/-- A member of the sorted positive entries is a positive entry of the
score table. -/
theorem mem_sortedPositives {ns : RepositoryType → ℚ} {e : RepositoryType × ℚ}
    (h : e ∈ sortedPositives ns) : e.2 = ns e.1 ∧ 0 < e.2 := by
  unfold sortedPositives at h
  have h2 := (mem_sortCmp _ _ _).mp h
  have h3 := List.mem_filter.mp h2
  refine ⟨entry_snd_eq h3.1, by simpa using h3.2⟩

/-- The clamped confidence of the selected primary entry lies in the
unit interval for every score assignment. -/
theorem selectPrimary_conf_bounds (ns : RepositoryType → ℚ) :
    0 ≤ jsMin (selectPrimary ns).2 1 ∧ jsMin (selectPrimary ns).2 1 ≤ 1 := by
  unfold selectPrimary
  cases hhd : (sortedPositives ns).head? with
  | none =>
    exact ⟨jsMin_nonneg (le_refl 0) (by norm_num), jsMin_le_right 0 1⟩
  | some e =>
    have he := mem_sortedPositives (head?_mem hhd)
    exact ⟨jsMin_nonneg (le_of_lt he.2) (by norm_num), jsMin_le_right e.2 1⟩

/-- A strictly dominant positive score wins the primary selection: if
some type has a positive normalized score exceeding every other positive
score by at least the 0.1 epsilon, it is selected. -/
theorem selectPrimary_dominant (ns : RepositoryType → ℚ) (tstar : RepositoryType)
    (hpos : 0 < ns tstar)
    (hdom : ∀ u, u ≠ tstar → 0 < ns u → ns u + 1 / 10 ≤ ns tstar) :
    (selectPrimary ns).1 = tstar := by
  have hx : (tstar, ns tstar) ∈
      (allTypes.map (fun t => (t, ns t))).filter (fun e => 0 < e.2) :=
    List.mem_filter.mpr ⟨List.mem_map.mpr ⟨tstar, mem_allTypes tstar, rfl⟩, by simpa using hpos⟩
  have hhead : (sortedPositives ns).head? = some (tstar, ns tstar) := by
    unfold sortedPositives
    refine sortCmp_head_dominant cmpEntries _ (tstar, ns tstar) hx ?_ ?_
    · norm_num [cmpEntries, ratAbs]
    · intro y hy hne
      have hy2 := List.mem_filter.mp hy
      have hsnd : y.2 = ns y.1 := entry_snd_eq hy2.1
      have hypos : 0 < y.2 := by simpa using hy2.2
      have hne1 : y.1 ≠ tstar := by
        intro h1
        apply hne
        have : y = (y.1, y.2) := rfl
        rw [this, h1, hsnd, h1]
      have hdy := hdom y.1 hne1 (by rw [← hsnd]; exact hypos)
      rw [hsnd] at hypos
      constructor
      · show cmpEntries (tstar, ns tstar) y < 0
        unfold cmpEntries ratAbs
        simp only [hsnd]
        split
        · rename_i habs
          rw [if_neg (by linarith)]
          linarith
        · rename_i habs
          exact absurd (by linarith : y.2 - ns tstar < 0) (by rw [hsnd]; exact habs)
      · show ¬ cmpEntries y (tstar, ns tstar) < 0
        unfold cmpEntries ratAbs
        simp only [hsnd]
        split
        · rename_i habs
          exact absurd habs (not_lt.mpr (by linarith))
        · rename_i habs
          rw [if_neg (not_lt.mpr (by linarith))]
          exact not_lt.mpr (by linarith)
  unfold selectPrimary
  rw [hhead]

/-- C1: for every indicator set with confidences at least zero, the
normalized per-type scores lie in the unit interval; if all scores are
zero the selection is the unknown type at confidence zero, and if some
score is positive the selected primary type has a positive score whose
value is the reported confidence source.  The classifier is a total
function of its inputs (no exception for malformed input), and the
clamped confidence of every detect run lies in the unit interval. -/
theorem classifier_scores_unit_and_primary :
    (∀ (inds : List TypeIndicator), (∀ i ∈ inds, 0 ≤ i.confidence) →
      (∀ t, 0 ≤ calculateTypeScores inds t ∧ calculateTypeScores inds t ≤ 1) ∧
      ((∀ t, calculateTypeScores inds t = 0) →
        selectPrimary (calculateTypeScores inds) = (.unknown, 0)) ∧
      ((∃ t, 0 < calculateTypeScores inds t) →
        0 < calculateTypeScores inds (selectPrimary (calculateTypeScores inds)).1 ∧
        (selectPrimary (calculateTypeScores inds)).2 =
          calculateTypeScores inds (selectPrimary (calculateTypeScores inds)).1)) ∧
    (∀ (env : DetectorEnv) (fuel : Nat) (lp : Str) (tree : DirTree) (fs : List FileInfo),
      0 ≤ (detect env fuel lp tree fs).confidence ∧
      (detect env fuel lp tree fs).confidence ≤ 1) := by
  constructor
  · intro inds h
    refine ⟨calculateTypeScores_bounds inds h, ?_, ?_⟩
    · intro hz
      have hfil : (allTypes.map (fun t => (t, calculateTypeScores inds t))).filter
          (fun e => 0 < e.2) = [] := by
        rw [List.filter_eq_nil_iff]
        intro e he
        have := entry_snd_eq he
        simp [this, hz e.1]
      unfold selectPrimary sortedPositives
      rw [hfil]
      rfl
    · rintro ⟨t0, ht0⟩
      have hmem : (t0, calculateTypeScores inds t0) ∈
          (allTypes.map (fun t => (t, calculateTypeScores inds t))).filter
            (fun e => 0 < e.2) :=
        List.mem_filter.mpr ⟨List.mem_map.mpr ⟨t0, mem_allTypes t0, rfl⟩, by simpa using ht0⟩
      cases hhd : (sortedPositives (calculateTypeScores inds)).head? with
      | none =>
        exfalso
        have hnil := List.head?_eq_none_iff.mp hhd
        have : (t0, calculateTypeScores inds t0) ∈ sortedPositives (calculateTypeScores inds) := by
          unfold sortedPositives
          exact (mem_sortCmp _ _ _).mpr hmem
        rw [hnil] at this
        cases this
      | some e =>
        have he := mem_sortedPositives (head?_mem hhd)
        have hsel : selectPrimary (calculateTypeScores inds) = e := by
          unfold selectPrimary
          rw [hhd]
        rw [hsel]
        exact ⟨he.1 ▸ he.2, he.1⟩
  · intro env fuel lp tree fs
    have hconf : ∀ (sub : Unit → List RepositoryType),
        (detectCore env lp tree fs sub).confidence =
          jsMin (selectPrimary (calculateTypeScores (detectFromFiles fs ++
            detectFromDependencies env lp ++ detectFromStructure tree))).2 1 := by
      intro sub
      simp only [detectCore]
    cases fuel with
    | zero =>
      rw [show detect env 0 lp tree fs = detectCore env lp tree fs (fun _ => []) from rfl, hconf]
      exact selectPrimary_conf_bounds _
    | succ f =>
      rw [show detect env (Nat.succ f) lp tree fs = detectCore env lp tree fs
        (fun _ => detectMonorepoSubTypesF env (detect env f) lp tree) from rfl, hconf]
      exact selectPrimary_conf_bounds _

set_option maxHeartbeats 2000000 in
/-- Witness for the score-normalization theorem at a one-indicator set
and at the empty indicator set. -/
theorem classifier_scores_unit_witness :
    (∀ t, 0 ≤ calculateTypeScores [witIndicator] t ∧ calculateTypeScores [witIndicator] t ≤ 1) ∧
    selectPrimary (calculateTypeScores []) = (.unknown, 0) :=
  ⟨(classifier_scores_unit_and_primary.1 [witIndicator] (by decide)).1,
   (classifier_scores_unit_and_primary.1 [] (by decide)).2.1 (by decide)⟩

/-- C2, amended: the comparator prefers the higher normalized score and,
within the 0.1 epsilon, the fixed priority order infra-as-code, library,
monorepo, mobile, frontend, backend, unknown; this pairwise preference
can be cyclic, so it does not single out a winner for every score
assignment, but whenever one type's positive normalized score exceeds
every other positive score by at least 0.1 that type is the unique
primary type the detector returns. -/
theorem comparator_epsilon_priority_and_dominant :
    (∀ (s : RepositoryType → ℚ) (a b : RepositoryType),
      ratAbs (s b - s a) < 1 / 10 →
      (beats s a b ↔ TYPE_PRIORITY b < TYPE_PRIORITY a)) ∧
    (∀ (inds : List TypeIndicator) (tstar : RepositoryType),
      0 < calculateTypeScores inds tstar →
      (∀ u, u ≠ tstar → 0 < calculateTypeScores inds u →
        calculateTypeScores inds u + 1 / 10 ≤ calculateTypeScores inds tstar) →
      (selectPrimary (calculateTypeScores inds)).1 = tstar) ∧
    (∀ (env : DetectorEnv) (fuel : Nat) (lp : Str) (tree : DirTree) (fs : List FileInfo)
       (tstar : RepositoryType),
      0 < calculateTypeScores (detectFromFiles fs ++ detectFromDependencies env lp ++
        detectFromStructure tree) tstar →
      (∀ u, u ≠ tstar →
        0 < calculateTypeScores (detectFromFiles fs ++ detectFromDependencies env lp ++
          detectFromStructure tree) u →
        calculateTypeScores (detectFromFiles fs ++ detectFromDependencies env lp ++
          detectFromStructure tree) u + 1 / 10 ≤
        calculateTypeScores (detectFromFiles fs ++ detectFromDependencies env lp ++
          detectFromStructure tree) tstar) →
      (detect env fuel lp tree fs).primaryType = tstar) := by
  refine ⟨?_, ?_, ?_⟩
  · intro s a b h
    unfold beats cmpEntries
    rw [if_pos h]
    rw [Int.cast_lt_zero, sub_neg]
  · intro inds tstar hpos hdom
    exact selectPrimary_dominant (calculateTypeScores inds) tstar hpos hdom
  · intro env fuel lp tree fs tstar hpos hdom
    have h := selectPrimary_dominant _ tstar hpos hdom
    have hprim : ∀ (sub : Unit → List RepositoryType),
        (detectCore env lp tree fs sub).primaryType =
          (selectPrimary (calculateTypeScores (detectFromFiles fs ++
            detectFromDependencies env lp ++ detectFromStructure tree))).1 := by
      intro sub
      simp only [detectCore]
    cases fuel with
    | zero =>
      rw [show detect env 0 lp tree fs = detectCore env lp tree fs (fun _ => []) from rfl, hprim]
      exact h
    | succ f =>
      rw [show detect env (Nat.succ f) lp tree fs = detectCore env lp tree fs
        (fun _ => detectMonorepoSubTypesF env (detect env f) lp tree) from rfl, hprim]
      exact h

set_option maxHeartbeats 2000000 in
/-- Witness for the amended comparator theorem: with the single main.tf
indicator, infra-as-code dominates and is selected. -/
theorem comparator_dominant_witness :
    (selectPrimary (calculateTypeScores [witIndicator])).1 = .infraAsCode :=
  comparator_epsilon_priority_and_dominant.2.1 [witIndicator] .infraAsCode
    (by decide) (by decide)

/-- A failing clone sends the pipeline body straight to failed: the only
status updates it emits are cloning and then failed. -/
theorem runAnalysisMain_clone_fail (env : OrchEnv) (req : AnalysisRequest)
    (a0 : Analysis) (tr0 : List Effect) (h : env.clone.success = false) :
    (runAnalysisMain env req a0 tr0).1.status = .failed ∧
    (runAnalysisMain env req a0 tr0).1.errorMessage =
      some (cs ("Failed to clone repository: ") ++ env.clone.error.getD []) ∧
    statusesOf (runAnalysisMain env req a0 tr0).2 =
      statusesOf tr0 ++ [.cloning, .failed] := by
  unfold runAnalysisMain updateStatusM failAnalysisM
  simp [h, statusesOf]
  split <;> simp [statusesOf]

/-- C7: when the clone step fails (and the cache does not serve the
job), the job transitions from queued through cloning directly to failed
with an error message, and its status is never detecting nor any later
stage at any point of the run. -/
theorem clone_failure_fails_without_detecting :
    ∀ (env : OrchEnv) (req : AnalysisRequest) (a0 : Analysis),
      env.clone.success = false →
      (req.force.getD false = true ∨ env.cacheGet = none) →
      (runAnalysis env req a0).1.status = .failed ∧
      (runAnalysis env req a0).1.errorMessage =
        some (cs ("Failed to clone repository: ") ++ env.clone.error.getD []) ∧
      statusesOf (runAnalysis env req a0).2 = [.cloning, .failed] := by
  intro env req a0 hclone hcache
  unfold runAnalysis
  cases hforce : req.force.getD false with
  | true =>
    simp only [hforce]
    have h := runAnalysisMain_clone_fail env req a0 [] hclone
    simpa [statusesOf] using h
  | false =>
    have hc : env.cacheGet = none := by
      rcases hcache with hcache | hcache
      · rw [hforce] at hcache
        cases hcache
      · exact hcache
    simp only [hforce, hc]
    have h := runAnalysisMain_clone_fail env req a0 [.cacheGetCalled] hclone
    simpa [statusesOf] using h

/-- Witness for the clone-failure theorem at the concrete failing
environment. -/
theorem clone_failure_fails_witness :
    (runAnalysis failCloneEnv plainRequest witAnalysisC7).1.status = .failed ∧
    (runAnalysis failCloneEnv plainRequest witAnalysisC7).1.errorMessage =
      some (cs ("Failed to clone repository: ") ++
        failCloneEnv.clone.error.getD []) ∧
    statusesOf (runAnalysis failCloneEnv plainRequest witAnalysisC7).2 =
      [.cloning, .failed] :=
  clone_failure_fails_without_detecting failCloneEnv plainRequest witAnalysisC7
    rfl (Or.inr rfl)

/-- C8: with no forced refresh and a cache hit, the job completes at
progress 100 with the cached result attached and the cache-hit flag set,
and the run performs no clone and enters no pipeline stage: its only
emitted status is completed. -/
theorem cache_hit_short_circuits :
    ∀ (env : OrchEnv) (req : AnalysisRequest) (a0 : Analysis) (c : CacheEntry),
      (req.force = none ∨ req.force = some false) →
      env.cacheGet = some c →
      (runAnalysis env req a0).1.status = .completed ∧
      (runAnalysis env req a0).1.progress = 100 ∧
      (runAnalysis env req a0).1.result = some c.result ∧
      (runAnalysis env req a0).1.usage.cacheHit = true ∧
      Effect.cloneCalled ∉ (runAnalysis env req a0).2 ∧
      statusesOf (runAnalysis env req a0).2 = [.completed] := by
  intro env req a0 c hf hc
  have hforce : req.force.getD false = false := by
    rcases hf with hf | hf <;> simp [hf]
  unfold runAnalysis
  simp only [hforce, hc]
  refine ⟨rfl, rfl, rfl, rfl, ?_, by simp [statusesOf]⟩
  simp

/-- Witness for the cache-hit theorem at the concrete hit environment. -/
theorem cache_hit_short_circuits_witness :
    (runAnalysis cacheHitEnv plainRequest witAnalysisC8).1.status = .completed ∧
    (runAnalysis cacheHitEnv plainRequest witAnalysisC8).1.progress = 100 ∧
    (runAnalysis cacheHitEnv plainRequest witAnalysisC8).1.result = some cachedResultC8 ∧
    (runAnalysis cacheHitEnv plainRequest witAnalysisC8).1.usage.cacheHit = true ∧
    Effect.cloneCalled ∉ (runAnalysis cacheHitEnv plainRequest witAnalysisC8).2 ∧
    statusesOf (runAnalysis cacheHitEnv plainRequest witAnalysisC8).2 = [.completed] :=
  cache_hit_short_circuits cacheHitEnv plainRequest witAnalysisC8
    { result := cachedResultC8 } (Or.inl rfl) rfl

/-- An element of the seed stays in an append-accumulating fold. -/
theorem foldl_append_mem_init {α β : Type} (g : α → List β) (b : β) :
    ∀ (l : List α) (init : List β), b ∈ init →
      b ∈ List.foldl (fun acc y => acc ++ g y) init l := by
  intro l
  induction l with
  | nil => intro init h; exact h
  | cons y ys ih =>
    intro init h
    exact ih (init ++ g y) (List.mem_append.mpr (Or.inl h))

/-- A contribution of any listed element appears in an
append-accumulating fold. -/
theorem foldl_append_mem {α β : Type} (g : α → List β) (b : β) (x : α) :
    ∀ (l : List α) (init : List β), x ∈ l → b ∈ g x →
      b ∈ List.foldl (fun acc y => acc ++ g y) init l := by
  intro l
  induction l with
  | nil => intro init hx _; cases hx
  | cons y ys ih =>
    intro init hx hb
    rcases List.mem_cons.mp hx with rfl | hx2
    · exact foldl_append_mem_init g b ys (init ++ g x) (List.mem_append.mpr (Or.inr hb))
    · exact ih (init ++ g y) hx2 hb

/-- A prompt of any category in the fixed order contributes its id to
the catalogue id list. -/
theorem mem_allCataloguePromptIds (env : OrchEnv) (rt : RepositoryType)
    (cat : FindingType) (p : PromptConfig) (hcat : cat ∈ categoriesList)
    (hp : p ∈ env.prompts rt cat) :
    p.id ∈ allCataloguePromptIds env rt :=
  foldl_append_mem (fun c => promptIds (env.prompts rt c)) p.id cat categoriesList []
    hcat (List.mem_map.mpr ⟨p, hp, rfl⟩)

/-- Keys produced by setKey are the written key or existing keys. -/
theorem mem_setKey {m : List (Str × Str)} {k v : Str} {kv : Str × Str}
    (h : kv ∈ setKey m k v) : kv.1 = k ∨ kv ∈ m := by
  unfold setKey at h
  split at h
  · rcases List.mem_map.mp h with ⟨kv0, hkv0, heq⟩
    by_cases hk : kv0.1 == k
    · rw [if_pos hk] at heq
      left
      rw [← heq]
      exact eq_of_beq hk
    · rw [if_neg hk] at heq
      right
      exact heq ▸ hkv0
  · rcases List.mem_append.mp h with h2 | h2
    · exact Or.inr h2
    · left
      simp only [List.mem_singleton] at h2
      rw [h2]

/-- A finding added by one synthesizer step comes from that step's
successful result and carries its task id. -/
theorem synthStep_findings (st : SynthState) (r : AgentResult) (f : Finding)
    (hf : f ∈ (synthStep st r).findings) :
    f ∈ st.findings ∨ (r.success = true ∧ f.agentType = r.taskId) := by
  rcases r with ⟨tid, rty, succ, out, tok, err⟩
  cases succ with
  | false =>
    left
    simpa [synthStep] using hf
  | true =>
    cases out with
    | none =>
      left
      simpa [synthStep] using hf
    | some o =>
      rcases o with ⟨fnd, iss, vul, recs, pat2, conf2, lay2, comps2, nods2, edgs2, extd2⟩
      cases recs <;> cases rty <;>
        simp only [synthStep] at hf <;>
        repeat' split at hf
      all_goals
        first
        | exact Or.inl hf
        | (rcases List.mem_append.mp hf with h2 | h2
           · exact Or.inl h2
           · right
             refine ⟨rfl, ?_⟩
             unfold parseFindings at h2
             rcases List.mem_map.mp h2 with ⟨raw, _, heq⟩
             rw [← heq])

/-- A security finding added by one synthesizer step comes from that
step's successful result and carries its task id. -/
theorem synthStep_security (st : SynthState) (r : AgentResult) (sf : SecurityFinding)
    (hf : sf ∈ (synthStep st r).securityFindings) :
    sf ∈ st.securityFindings ∨ (r.success = true ∧ sf.agentType = r.taskId) := by
  rcases r with ⟨tid, rty, succ, out, tok, err⟩
  cases succ with
  | false =>
    left
    simpa [synthStep] using hf
  | true =>
    cases out with
    | none =>
      left
      simpa [synthStep] using hf
    | some o =>
      rcases o with ⟨fnd, iss, vul, recs, pat2, conf2, lay2, comps2, nods2, edgs2, extd2⟩
      cases recs <;> cases rty <;>
        simp only [synthStep] at hf <;>
        repeat' split at hf
      all_goals
        first
        | exact Or.inl hf
        | (rcases List.mem_append.mp hf with h2 | h2
           · exact Or.inl h2
           · right
             refine ⟨rfl, ?_⟩
             unfold parseSecurityFindings at h2
             rcases List.mem_map.mp h2 with ⟨raw, _, heq⟩
             rw [← heq])

/-- Findings of the synthesizer fold come from successful results. -/
theorem synth_fold_findings (results : List AgentResult) :
    ∀ (st : SynthState) (f : Finding),
      f ∈ (results.foldl synthStep st).findings →
      f ∈ st.findings ∨ ∃ r ∈ results, r.success = true ∧ f.agentType = r.taskId := by
  induction results with
  | nil => intro st f h; exact Or.inl h
  | cons r rest ih =>
    intro st f h
    rcases ih (synthStep st r) f h with h2 | ⟨r2, hr2, hp⟩
    · rcases synthStep_findings st r f h2 with h3 | h3
      · exact Or.inl h3
      · exact Or.inr ⟨r, List.mem_cons_self r rest, h3.1, h3.2⟩
    · exact Or.inr ⟨r2, List.mem_cons_of_mem r hr2, hp⟩

/-- Security findings of the synthesizer fold come from successful
results. -/
theorem synth_fold_security (results : List AgentResult) :
    ∀ (st : SynthState) (sf : SecurityFinding),
      sf ∈ (results.foldl synthStep st).securityFindings →
      sf ∈ st.securityFindings ∨ ∃ r ∈ results, r.success = true ∧ sf.agentType = r.taskId := by
  induction results with
  | nil => intro st sf h; exact Or.inl h
  | cons r rest ih =>
    intro st sf h
    rcases ih (synthStep st r) sf h with h2 | ⟨r2, hr2, hp⟩
    · rcases synthStep_security st r sf h2 with h3 | h3
      · exact Or.inl h3
      · exact Or.inr ⟨r, List.mem_cons_self r rest, h3.1, h3.2⟩
    · exact Or.inr ⟨r2, List.mem_cons_of_mem r hr2, hp⟩

/-- The result of one reasoning call carries the task id it was called
with, in the success and in the failure shape alike. -/
theorem callMageAgent_taskId (env : OrchEnv) (tid : Str) (cat : FindingType) (c : Str) :
    (callMageAgent env tid cat c).taskId = tid := by
  unfold callMageAgent
  split <;> rfl

/-- The invariant only reads the results and the execution context. -/
theorem agentsInv_of (env : OrchEnv) (rt : RepositoryType) (failedId : Str)
    {st st' : AgentsState}
    (hr : st'.results = st.results) (hc : st'.context = st.context)
    (h : AgentsInv env rt failedId st) : AgentsInv env rt failedId st' := by
  obtain ⟨h1, h2⟩ := h
  exact ⟨fun r hrm => h1 r (hr ▸ hrm), fun kv hkv => h2 kv (hc ▸ hkv)⟩

/-- One prompt step preserves the invariant: the appended result keeps
its catalogue id, a failing-task call is recorded as unsuccessful, and
only a successful call may extend the dependency chain. -/
theorem promptStep_inv (env : OrchEnv) (rt : RepositoryType) (failedId : Str)
    (cat : FindingType) (st : AgentsState) (p : PromptConfig)
    (hfail : ∀ c content, (callMageAgent env failedId c content).success = false)
    (hp : p.id ∈ allCataloguePromptIds env rt)
    (hinv : AgentsInv env rt failedId st) :
    AgentsInv env rt failedId (runAgentsPromptStep env cat st p) := by
  obtain ⟨hres, hctx⟩ := hinv
  constructor
  · intro r hr
    have hr2 : r ∈ st.results ++
        [callMageAgent env p.id cat (renderPrompt p st.context).content] := hr
    rcases List.mem_append.mp hr2 with h | h
    · exact hres r h
    · simp only [List.mem_singleton] at h
      subst h
      refine ⟨by rw [callMageAgent_taskId]; exact hp, ?_⟩
      intro heq
      rw [callMageAgent_taskId] at heq
      rw [heq]
      exact hfail cat _
  · intro kv hkv
    rcases hO : (callMageAgent env p.id cat (renderPrompt p st.context).content).output
      with _ | o
    · have hctx2 : (runAgentsPromptStep env cat st p).context = st.context := by
        unfold runAgentsPromptStep
        simp only [hO]
      rw [hctx2] at hkv
      exact hctx kv hkv
    · by_cases hs : (callMageAgent env p.id cat (renderPrompt p st.context).content).success = true
      · have hctx2 : (runAgentsPromptStep env cat st p).context.previousContext =
            setKey st.context.previousContext p.id (env.stringify o) := by
          unfold runAgentsPromptStep
          simp only [hO, if_pos hs]
        rw [hctx2] at hkv
        rcases mem_setKey hkv with h | h
        · intro hc
          have hpid : p.id = failedId := h ▸ hc
          have : (callMageAgent env p.id cat (renderPrompt p st.context).content).success = false := by
            rw [hpid]
            exact hfail cat _
          rw [hs] at this
          cases this
        · exact hctx kv h
      · have hctx2 : (runAgentsPromptStep env cat st p).context = st.context := by
          unfold runAgentsPromptStep
          simp only [hO, if_neg hs]
        rw [hctx2] at hkv
        exact hctx kv hkv

/-- The inner prompt loop preserves the invariant when every prompt of
the list is drawn from the catalogue. -/
theorem promptFold_inv (env : OrchEnv) (rt : RepositoryType) (failedId : Str)
    (cat : FindingType)
    (hfail : ∀ c content, (callMageAgent env failedId c content).success = false) :
    ∀ (l : List PromptConfig), (∀ p ∈ l, p.id ∈ allCataloguePromptIds env rt) →
    ∀ st, AgentsInv env rt failedId st →
      AgentsInv env rt failedId (l.foldl (runAgentsPromptStep env cat) st) := by
  intro l
  induction l with
  | nil => intro _ st h; exact h
  | cons p ps ih =>
    intro hl st h
    exact ih (fun q hq => hl q (List.mem_cons_of_mem p hq))
      (runAgentsPromptStep env cat st p)
      (promptStep_inv env rt failedId cat st p hfail (hl p (List.mem_cons_self p ps)) h)

/-- One category step preserves the invariant: both skip branches leave
the state untouched, and the main branch only changes the results and
context through the inner prompt loop. -/
theorem categoryStep_inv (env : OrchEnv) (rt : RepositoryType) (failedId : Str)
    (inc : Bool) (st : AgentsState) (cat : FindingType)
    (hfail : ∀ c content, (callMageAgent env failedId c content).success = false)
    (hcat : cat ∈ categoriesList)
    (hinv : AgentsInv env rt failedId st) :
    AgentsInv env rt failedId (runAgentsCategoryStep env rt inc st cat) := by
  unfold runAgentsCategoryStep
  split
  · exact hinv
  · dsimp only
    split
    · exact hinv
    · refine agentsInv_of env rt failedId rfl rfl ?_
      refine promptFold_inv env rt failedId cat hfail _ ?_ _ ?_
      · intro p hp
        exact mem_allCataloguePromptIds env rt cat p hcat ((mem_sortCmp _ _ p).mp hp)
      · exact agentsInv_of env rt failedId rfl rfl hinv

/-- The outer category loop preserves the invariant. -/
theorem categoriesFold_inv (env : OrchEnv) (rt : RepositoryType) (failedId : Str)
    (inc : Bool)
    (hfail : ∀ c content, (callMageAgent env failedId c content).success = false) :
    ∀ (l : List FindingType), (∀ c ∈ l, c ∈ categoriesList) →
    ∀ st, AgentsInv env rt failedId st →
      AgentsInv env rt failedId (l.foldl (runAgentsCategoryStep env rt inc) st) := by
  intro l
  induction l with
  | nil => intro _ st h; exact h
  | cons c rest ih =>
    intro hl st h
    exact ih (fun d hd => hl d (List.mem_cons_of_mem c hd)) _
      (categoryStep_inv env rt failedId inc st c hfail (hl c (List.mem_cons_self c rest)) h)

/-- runAgents establishes the invariant from the empty initial state:
every recorded result has a catalogue task id, results of the failing
task are unsuccessful, and the dependency chain excludes the failing
task. -/
theorem runAgents_inv (env : OrchEnv) (a : Analysis) (tr : List Effect) (lp : Str)
    (tyR : TypeDetectionResult) (tree : DirTree) (fs : List FileInfo)
    (inc : Bool) (dep : Depth) (failedId : Str)
    (hfail : ∀ c content, (callMageAgent env failedId c content).success = false) :
    AgentsInv env tyR.primaryType failedId
      (runAgents env a tr lp tyR tree fs inc dep) := by
  refine categoriesFold_inv env tyR.primaryType failedId inc hfail categoriesList
    (fun c hc => hc) _ ?_
  constructor
  · intro r hr
    exact absurd hr (List.not_mem_nil r)
  · intro kv hkv
    exact absurd hkv (List.not_mem_nil kv)

/-- With a successful clone, the pipeline body completes at progress
100 and its result's findings and security findings are exactly the
synthesis of the runAgents results. -/
theorem runAnalysisMain_completed (env : OrchEnv) (req : AnalysisRequest)
    (a0 : Analysis) (tr0 : List Effect) (hclone : env.clone.success = true) :
    (runAnalysisMain env req a0 tr0).1.status = .completed ∧
    (runAnalysisMain env req a0 tr0).1.progress = 100 ∧
    ∃ (a3 : Analysis) (tr4 : List Effect) (res : AnalysisResult),
      (runAnalysisMain env req a0 tr0).1.result = some res ∧
      res.findings =
        ((runAgents env a3 tr4 env.clone.localPath
            (detect env.detectEnv env.detectFuel env.clone.localPath env.dirStructure env.files)
            env.dirStructure env.files a3.includeSecurity a3.analysisDepth).results.foldl
          synthStep
          { architecture := initialArchitecture, findings := [],
            securityFindings := [], recommendations := [] }).findings ∧
      ∀ l, res.securityFindings = some l →
        l = ((runAgents env a3 tr4 env.clone.localPath
            (detect env.detectEnv env.detectFuel env.clone.localPath env.dirStructure env.files)
            env.dirStructure env.files a3.includeSecurity a3.analysisDepth).results.foldl
          synthStep
          { architecture := initialArchitecture, findings := [],
            securityFindings := [], recommendations := [] }).securityFindings := by
  unfold runAnalysisMain updateStatusM synthesizeResults
  simp only [hclone]
  refine ⟨rfl, rfl, _, _, _, rfl, rfl, ?_⟩
  intro l hl
  split at hl
  · exact (Option.some.inj hl).symm
  · cases hl

/-- C6: when the clone succeeds, the cache does not serve the job, and
every reasoning call of one distinguished task fails while the pipeline
itself runs, the job still completes at progress 100; every finding and
security finding of the synthesized result comes from a successful task
other than the failed one, drawn from the catalogue of the detected
type; and the failed task never contributes an entry to the dependency
chain of any runAgents run. -/
theorem one_task_failure_still_completes
    (env : OrchEnv) (req : AnalysisRequest) (a0 : Analysis) (failedId : Str)
    (hclone : env.clone.success = true)
    (hnocache : req.force.getD false = true ∨ env.cacheGet = none)
    (hfail : ∀ cat content, (callMageAgent env failedId cat content).success = false) :
    (runAnalysis env req a0).1.status = .completed ∧
    (runAnalysis env req a0).1.progress = 100 ∧
    (∃ res, (runAnalysis env req a0).1.result = some res ∧
      (∀ f ∈ res.findings, f.agentType ≠ failedId ∧
        f.agentType ∈ allCataloguePromptIds env
          (detect env.detectEnv env.detectFuel env.clone.localPath
            env.dirStructure env.files).primaryType) ∧
      (∀ l, res.securityFindings = some l → ∀ sf ∈ l, sf.agentType ≠ failedId ∧
        sf.agentType ∈ allCataloguePromptIds env
          (detect env.detectEnv env.detectFuel env.clone.localPath
            env.dirStructure env.files).primaryType)) ∧
    ∀ (a : Analysis) (tr : List Effect) (lp : Str) (tyR : TypeDetectionResult)
      (tree : DirTree) (fs : List FileInfo) (inc : Bool) (dep : Depth),
      ∀ kv ∈ (runAgents env a tr lp tyR tree fs inc dep).context.previousContext,
        kv.1 ≠ failedId := by
  have key : ∃ tr0, runAnalysis env req a0 = runAnalysisMain env req a0 tr0 := by
    unfold runAnalysis
    rcases hnocache with hforce | hcache
    · rw [hforce]
      exact ⟨[], by rw [if_neg (by decide)]⟩
    · by_cases hf : req.force.getD false = false
      · rw [if_pos hf, hcache]
        exact ⟨[.cacheGetCalled], rfl⟩
      · rw [if_neg hf]
        exact ⟨[], rfl⟩
  rcases key with ⟨tr0, hkey⟩
  rw [hkey]
  obtain ⟨h1, h2, a3, tr4, res, hres, hfind, hsec⟩ :=
    runAnalysisMain_completed env req a0 tr0 hclone
  refine ⟨h1, h2, ⟨res, hres, ?_, ?_⟩, ?_⟩
  · intro f hf2
    rw [hfind] at hf2
    rcases synth_fold_findings _ _ _ hf2 with h | ⟨r, hr, hsucc, heq⟩
    · exact absurd h (List.not_mem_nil f)
    · obtain ⟨hinvres, _⟩ := runAgents_inv env a3 tr4 env.clone.localPath
        (detect env.detectEnv env.detectFuel env.clone.localPath env.dirStructure env.files)
        env.dirStructure env.files a3.includeSecurity a3.analysisDepth failedId hfail
      obtain ⟨hid, hunsucc⟩ := hinvres r hr
      constructor
      · intro hcontra
        rw [heq] at hcontra
        rw [hunsucc hcontra] at hsucc
        cases hsucc
      · rw [heq]
        exact hid
  · intro l hl sf hsf
    rw [hsec l hl] at hsf
    rcases synth_fold_security _ _ _ hsf with h | ⟨r, hr, hsucc, heq⟩
    · exact absurd h (List.not_mem_nil sf)
    · obtain ⟨hinvres, _⟩ := runAgents_inv env a3 tr4 env.clone.localPath
        (detect env.detectEnv env.detectFuel env.clone.localPath env.dirStructure env.files)
        env.dirStructure env.files a3.includeSecurity a3.analysisDepth failedId hfail
      obtain ⟨hid, hunsucc⟩ := hinvres r hr
      constructor
      · intro hcontra
        rw [heq] at hcontra
        rw [hunsucc hcontra] at hsucc
        cases hsucc
      · rw [heq]
        exact hid
  · intro a tr lp tyR tree fs inc dep kv hkv
    exact (runAgents_inv env a tr lp tyR tree fs inc dep failedId hfail).2 kv hkv

/-- Witness for the one-task-failure theorem at the concrete five-task
scenario in which task t3 times out. -/
theorem one_task_failure_still_completes_witness :
    (runAnalysis witEnvC6 plainRequest witAnalysisC6).1.status = .completed ∧
    (runAnalysis witEnvC6 plainRequest witAnalysisC6).1.progress = 100 ∧
    (∃ res, (runAnalysis witEnvC6 plainRequest witAnalysisC6).1.result = some res ∧
      (∀ f ∈ res.findings, f.agentType ≠ cs ("t3") ∧
        f.agentType ∈ allCataloguePromptIds witEnvC6
          (detect witEnvC6.detectEnv witEnvC6.detectFuel witEnvC6.clone.localPath
            witEnvC6.dirStructure witEnvC6.files).primaryType) ∧
      (∀ l, res.securityFindings = some l → ∀ sf ∈ l, sf.agentType ≠ cs ("t3") ∧
        sf.agentType ∈ allCataloguePromptIds witEnvC6
          (detect witEnvC6.detectEnv witEnvC6.detectFuel witEnvC6.clone.localPath
            witEnvC6.dirStructure witEnvC6.files).primaryType)) ∧
    ∀ (a : Analysis) (tr : List Effect) (lp : Str) (tyR : TypeDetectionResult)
      (tree : DirTree) (fs : List FileInfo) (inc : Bool) (dep : Depth),
      ∀ kv ∈ (runAgents witEnvC6 a tr lp tyR tree fs inc dep).context.previousContext,
        kv.1 ≠ cs ("t3") :=
  one_task_failure_still_completes witEnvC6 plainRequest witAnalysisC6 (cs ("t3"))
    rfl (Or.inr rfl) (fun _ _ => rfl)

/-- isPre decides the leading-segment relation. -/
theorem isPre_iff : ∀ (p s : Str), isPre p s = true ↔ IsPreP p s := by
  intro p
  induction p with
  | nil =>
    intro s
    simp only [isPre, IsPreP]
    exact ⟨fun _ => ⟨s, rfl⟩, fun _ => trivial⟩
  | cons a p ih =>
    intro s
    cases s with
    | nil =>
      simp only [isPre, IsPreP]
      constructor
      · intro h; cases h
      · rintro ⟨t, ht⟩; cases ht
    | cons c rest =>
      simp only [isPre, Bool.and_eq_true, decide_eq_true_eq, ih rest]
      constructor
      · rintro ⟨rfl, t, rfl⟩
        exact ⟨t, rfl⟩
      · rintro ⟨t, ht⟩
        injection ht with h1 h2
        exact ⟨h1.symm, t, h2⟩

/-- containsL decides occurrence. -/
theorem containsL_iff : ∀ (s pat : Str), containsL s pat = true ↔ IsSub pat s := by
  intro s
  induction s with
  | nil =>
    intro pat
    rw [containsL]
    constructor
    · intro h
      split at h
      · rename_i hp
        rcases (isPre_iff pat []).mp hp with ⟨t, ht⟩
        exact ⟨[], t, ht⟩
      · cases h
    · rintro ⟨u, v, huv⟩
      rw [List.nil_eq, List.append_eq_nil] at huv
      obtain ⟨rfl, huv2⟩ := huv
      rw [List.append_eq_nil] at huv2
      obtain ⟨rfl, rfl⟩ := huv2
      rfl
  | cons c rest ih =>
    intro pat
    rw [containsL]
    split
    · rename_i hp
      rcases (isPre_iff pat (c :: rest)).mp hp with ⟨t, ht⟩
      simp only [true_iff]
      exact ⟨[], t, ht⟩
    · rename_i hp
      rw [ih pat]
      constructor
      · rintro ⟨u, v, huv⟩
        exact ⟨c :: u, v, by rw [huv]; rfl⟩
      · rintro ⟨u, v, huv⟩
        cases u with
        | nil =>
          exfalso
          exact hp ((isPre_iff pat (c :: rest)).mpr ⟨v, by simpa using huv⟩)
        | cons d u2 =>
          injection huv with h1 h2
          exact ⟨u2, v, h2⟩

/-- The head of a nonempty trailing segment is a character of the host
string. -/
theorem head_mem_of_suf {c : Char} {s2 l : Str} (h : IsSufP (c :: s2) l) : c ∈ l := by
  rcases h with ⟨t, rfl⟩
  exact List.mem_append.mpr (Or.inr (List.mem_cons_self c s2))

/-- A trailing segment of a cons is the whole list or a trailing segment
of the tail. -/
theorem sufP_cons {s2 : Str} {a : Char} {rest : Str} (h : IsSufP s2 (a :: rest)) :
    s2 = a :: rest ∨ IsSufP s2 rest := by
  rcases h with ⟨t, ht⟩
  cases t with
  | nil => left; exact ht.symm
  | cons b t2 =>
    injection ht with h1 h2
    right
    exact ⟨t2, h2⟩

/-- The tail of a trailing segment is a trailing segment. -/
theorem sufP_tail {c : Char} {s2 l : Str} (h : IsSufP (c :: s2) l) : IsSufP s2 l := by
  rcases h with ⟨t, ht⟩
  exact ⟨t ++ [c], by rw [ht, List.append_assoc]; rfl⟩

/-- A trailing segment of the tail is a trailing segment of the cons. -/
theorem sufP_of_tail {s2 : Str} {a : Char} {rest : Str} (h : IsSufP s2 rest) :
    IsSufP s2 (a :: rest) := by
  rcases h with ⟨t, rfl⟩
  exact ⟨a :: t, rfl⟩

/-- Separation holds whenever the pattern's first character does not
occur in the segment. -/
theorem CSI_of_head_notin (a : Char) (p2 seg : Str) (h : a ∉ seg) :
    CSI (a :: p2) seg := by
  intro s2 hsuf hne
  cases s2 with
  | nil => exact absurd rfl hne
  | cons c s3 =>
    have hc : c ∈ seg := head_mem_of_suf hsuf
    constructor
    · rintro ⟨t, ht⟩
      injection ht with h1 h2
      exact h (h1 ▸ hc)
    · rintro ⟨t, ht⟩
      injection ht with h1 h2
      exact h (h1.symm ▸ hc)

/-- Of two leading segments of the same string the shorter is a leading
segment of the longer. -/
theorem pre_of_pre_le : ∀ (x y s : Str), IsPreP x s → IsPreP y s →
    x.length ≤ y.length → IsPreP x y := by
  intro x
  induction x with
  | nil => intro y s _ _ _; exact ⟨y, rfl⟩
  | cons a x2 ih =>
    intro y s hx hy hle
    cases y with
    | nil => simp at hle
    | cons b y2 =>
      rcases hx with ⟨t1, ht1⟩
      rcases hy with ⟨t2, ht2⟩
      rw [ht1] at ht2
      injection ht2 with h1 h2
      simp only [List.length_cons, Nat.succ_le_succ_iff] at hle
      rcases ih y2 (x2 ++ t1) ⟨t1, rfl⟩ ⟨t2, h2⟩ hle with ⟨d, hd⟩
      exact ⟨d, by rw [h1, hd]; rfl⟩

/-- Separation restricts to trailing segments. -/
theorem CSI_of_suf {pat seg s2 : Str} (h : CSI pat seg) (hsuf : IsSufP s2 seg) :
    CSI pat s2 := by
  intro s3 hsuf2 hne
  rcases hsuf with ⟨t1, rfl⟩
  rcases hsuf2 with ⟨t2, rfl⟩
  exact h s3 ⟨t1 ++ t2, by rw [List.append_assoc]⟩ hne

/-- Unfolding of one scan step of the replacement on a cons cell. -/
theorem replaceAllF_cons_eq (pat rep : Str) (fuel : Nat) (c : Char) (rest : Str) :
    replaceAllF pat rep (fuel + 1) (c :: rest) =
      if pat.isEmpty = false ∧ isPre pat (c :: rest) = true then
        rep ++ replaceAllF pat rep fuel ((c :: rest).drop pat.length)
      else c :: replaceAllF pat rep fuel rest := rfl

/-- One non-matching scan step of the replacement copies a character. -/
theorem replaceAllF_cons_of_not (pat rep : Str) (fuel : Nat) (c : Char) (rest : Str)
    (h : ¬ (pat.isEmpty = false ∧ isPre pat (c :: rest) = true)) :
    replaceAllF pat rep (fuel + 1) (c :: rest) = c :: replaceAllF pat rep fuel rest := by
  rw [replaceAllF_cons_eq, if_neg h]

/-- One matching scan step of the replacement emits the replacement. -/
theorem replaceAllF_step_of_match (pat rep : Str) (fuel : Nat) (s : Str)
    (h : pat.isEmpty = false ∧ isPre pat s = true) :
    replaceAllF pat rep (fuel + 1) s = rep ++ replaceAllF pat rep fuel (s.drop pat.length) := by
  cases s with
  | nil =>
    exfalso
    cases hpat : pat with
    | nil => rw [hpat] at h; cases h.1
    | cons a ps => rw [hpat] at h; cases h.2
  | cons c rest => rw [replaceAllF_cons_eq, if_pos h]

/-- The scan copies through any segment the pattern cannot start
inside. -/
theorem scanThru (pat rep : Str) : ∀ (fuel : Nat) (s2 w : Str), CSI pat s2 →
    ∃ x, replaceAllF pat rep fuel (s2 ++ w) = s2 ++ x := by
  intro fuel
  induction fuel with
  | zero => intro s2 w _; exact ⟨w, rfl⟩
  | succ fuel ih =>
    intro s2 w hcsi
    cases s2 with
    | nil => exact ⟨replaceAllF pat rep (fuel + 1) w, rfl⟩
    | cons c s3 =>
      have hne : ¬ (pat.isEmpty = false ∧ isPre pat ((c :: s3) ++ w) = true) := by
        rintro ⟨hpe, hpre⟩
        have hp : IsPreP pat ((c :: s3) ++ w) := (isPre_iff _ _).mp hpre
        have hcs := hcsi (c :: s3) ⟨[], rfl⟩ (by simp)
        rcases Nat.le_total pat.length (c :: s3).length with hle | hle
        · exact hcs.1 (pre_of_pre_le pat (c :: s3) ((c :: s3) ++ w) hp ⟨w, rfl⟩ hle)
        · exact hcs.2 (pre_of_pre_le (c :: s3) pat ((c :: s3) ++ w) ⟨w, rfl⟩ hp hle)
      rcases ih s3 w (CSI_of_suf hcsi (sufP_tail ⟨[], rfl⟩)) with ⟨x, hx⟩
      refine ⟨x, ?_⟩
      rw [List.cons_append, replaceAllF_cons_of_not pat rep fuel c (s3 ++ w)
        (by rw [← List.cons_append]; exact hne), hx, List.cons_append]

/-- An occurrence of a two-way separated segment survives the global
replacement of the pattern. -/
theorem replaceAllF_preserve (pat rep seg : Str) (h1 : CSI pat seg) (h2 : CSI seg pat) :
    ∀ (fuel : Nat) (u v : Str), ∃ u2 v2,
      replaceAllF pat rep fuel (u ++ (seg ++ v)) = u2 ++ (seg ++ v2) := by
  intro fuel
  induction fuel with
  | zero => intro u v; exact ⟨u, v, rfl⟩
  | succ fuel ih =>
    intro u v
    cases u with
    | nil =>
      rcases scanThru pat rep (fuel + 1) seg v h1 with ⟨x, hx⟩
      refine ⟨[], x, ?_⟩
      rw [List.nil_append, hx, List.nil_append]
    | cons c u2 =>
      by_cases hm : pat.isEmpty = false ∧ isPre pat ((c :: u2) ++ (seg ++ v)) = true
      · have hp : IsPreP pat ((c :: u2) ++ (seg ++ v)) := (isPre_iff _ _).mp hm.2
        rcases le_or_lt pat.length (c :: u2).length with hle | hlt
        · rcases pre_of_pre_le pat (c :: u2) ((c :: u2) ++ (seg ++ v)) hp
            ⟨seg ++ v, rfl⟩ hle with ⟨u3, hu3⟩
          rcases ih u3 v with ⟨u4, v4, hu4⟩
          refine ⟨rep ++ u4, v4, ?_⟩
          rw [replaceAllF_step_of_match pat rep fuel _ hm, hu3, List.append_assoc,
            List.drop_left, hu4, List.append_assoc]
        · rcases pre_of_pre_le (c :: u2) pat ((c :: u2) ++ (seg ++ v))
            ⟨seg ++ v, rfl⟩ hp (Nat.le_of_lt hlt) with ⟨p2, hp2⟩
          exfalso
          have hp2ne : p2 ≠ [] := by
            intro h0
            rw [h0, List.append_nil] at hp2
            rw [hp2] at hlt
            exact Nat.lt_irrefl _ hlt
          rcases hp with ⟨t, ht⟩
          rw [hp2, List.append_assoc] at ht
          have hpt : seg ++ v = p2 ++ t := List.append_cancel_left ht
          have hcs := h2 p2 ⟨c :: u2, hp2⟩ hp2ne
          rcases Nat.le_total seg.length p2.length with hle2 | hle2
          · exact hcs.1 (pre_of_pre_le seg p2 (seg ++ v) ⟨v, rfl⟩ ⟨t, hpt⟩ hle2)
          · exact hcs.2 (pre_of_pre_le p2 seg (seg ++ v) ⟨t, hpt⟩ ⟨v, rfl⟩ hle2)
      · rcases ih u2 v with ⟨u3, v3, hu3⟩
        refine ⟨c :: u3, v3, ?_⟩
        rw [List.cons_append, replaceAllF_cons_of_not pat rep fuel c (u2 ++ (seg ++ v))
          (by rw [← List.cons_append]; exact hm), hu3, List.cons_append]

/-- With enough fuel, an occurrence of the pattern makes the replacement
string appear in the output of the global replacement. -/
theorem replaceAllF_introduce (pat rep : Str) (hpat : pat ≠ []) :
    ∀ (fuel : Nat) (u v : Str), (u ++ (pat ++ v)).length < fuel → ∃ u2 v2,
      replaceAllF pat rep fuel (u ++ (pat ++ v)) = u2 ++ (rep ++ v2) := by
  intro fuel
  induction fuel with
  | zero => intro u v h; cases h
  | succ fuel ih =>
    intro u v hlen
    have hpe : pat.isEmpty = false := by
      cases pat with
      | nil => exact absurd rfl hpat
      | cons a b => rfl
    cases u with
    | nil =>
      have hm : pat.isEmpty = false ∧ isPre pat ([] ++ (pat ++ v)) = true :=
        ⟨hpe, (isPre_iff _ _).mpr ⟨v, by rw [List.nil_append]⟩⟩
      exact ⟨[], replaceAllF pat rep fuel (([] ++ (pat ++ v)).drop pat.length),
        by rw [replaceAllF_step_of_match pat rep fuel _ hm]; rfl⟩
    | cons c u2 =>
      by_cases hm : pat.isEmpty = false ∧ isPre pat ((c :: u2) ++ (pat ++ v)) = true
      · exact ⟨[], replaceAllF pat rep fuel (((c :: u2) ++ (pat ++ v)).drop pat.length),
          by rw [replaceAllF_step_of_match pat rep fuel _ hm]; rfl⟩
      · have hlen2 : (u2 ++ (pat ++ v)).length < fuel := by
          simp only [List.cons_append, List.length_cons] at hlen
          exact Nat.lt_of_succ_lt_succ hlen
        rcases ih u2 v hlen2 with ⟨u3, v3, hu3⟩
        refine ⟨c :: u3, v3, ?_⟩
        rw [List.cons_append, replaceAllF_cons_of_not pat rep fuel c (u2 ++ (pat ++ v))
          (by rw [← List.cons_append]; exact hm), hu3, List.cons_append]

/-- Two rbrace-free names followed by the closing braces determine each
other under the leading-segment relation. -/
theorem name_eq_of_append_rb : ∀ (n m t : Str), (∀ c ∈ n, c ≠ rbrace) →
    (∀ c ∈ m, c ≠ rbrace) →
    m ++ [rbrace, rbrace] = n ++ ([rbrace, rbrace] ++ t) → n = m := by
  intro n
  induction n with
  | nil =>
    intro m t _ hm h
    cases m with
    | nil => rfl
    | cons c m2 =>
      injection h with h1 h2
      exact absurd h1 (hm c (List.mem_cons_self c m2))
  | cons a n2 ih =>
    intro m t hn hm h
    cases m with
    | nil =>
      injection h with h1 h2
      exact absurd h1.symm (hn a (List.mem_cons_self a n2))
    | cons b m2 =>
      injection h with h1 h2
      rw [ih m2 t (fun c hc => hn c (List.mem_cons_of_mem a hc))
        (fun c hc => hm c (List.mem_cons_of_mem b hc)) h2, h1]

/-- A placeholder is a leading segment of another placeholder only for
the same clean name. -/
theorem phOf_pre_eq {n m : Str} (hn : CleanName n) (hm : CleanName m)
    (h : IsPreP (phOf n) (phOf m)) : n = m := by
  rcases h with ⟨t, ht⟩
  unfold phOf at ht
  rw [List.cons_append, List.cons_append] at ht
  injection ht with h1 h2
  injection h2 with h3 h4
  rw [List.append_assoc] at h4
  exact name_eq_of_append_rb n m t (fun c hc => (hn.2 c hc).2.1)
    (fun c hc => (hm.2 c hc).2.1) h4

/-- Placeholders of two distinct clean names are two-way separated. -/
theorem CSI_phOf {n m : Str} (hn : CleanName n) (hm : CleanName m) (hne : n ≠ m) :
    CSI (phOf n) (phOf m) := by
  intro s2 hsuf hs2ne
  have hsuf2 : s2 = phOf m ∨ IsSufP s2 (lbrace :: (m ++ [rbrace, rbrace])) := sufP_cons hsuf
  rcases hsuf2 with rfl | hsuf2
  · exact ⟨fun h => hne (phOf_pre_eq hn hm h), fun h => hne (phOf_pre_eq hm hn h).symm⟩
  rcases sufP_cons hsuf2 with rfl | hsuf3
  · constructor
    · rintro ⟨t, ht⟩
      unfold phOf at ht
      rw [List.cons_append] at ht
      injection ht with h1 h2
      cases hmm : m with
      | nil => exact hm.1 hmm
      | cons b m2 =>
        rw [hmm] at h2
        injection h2 with h3 h4
        exact (hm.2 b (by rw [hmm]; exact List.mem_cons_self b m2)).1 h3
    · rintro ⟨t, ht⟩
      unfold phOf at ht
      injection ht with h1 h2
      cases hmm : m with
      | nil =>
        rw [hmm] at h2
        injection h2 with h3 h4
        exact absurd h3.symm (by decide)
      | cons b m2 =>
        rw [hmm] at h2
        injection h2 with h3 h4
        exact (hm.2 b (by rw [hmm]; exact List.mem_cons_self b m2)).1 h3.symm
  · cases s2 with
    | nil => exact absurd rfl hs2ne
    | cons c s3 =>
      have hcmem : c ∈ m ++ [rbrace, rbrace] := head_mem_of_suf hsuf3
      have hcne : c ≠ lbrace := by
        rcases List.mem_append.mp hcmem with h | h
        · exact (hm.2 c h).1
        · rcases List.mem_cons.mp h with rfl | h2
          · decide
          · rcases List.mem_singleton.mp h2 with rfl
            decide
      constructor
      · rintro ⟨t, ht⟩
        unfold phOf at ht
        injection ht with h1 h2
        exact hcne h1
      · rintro ⟨t, ht⟩
        unfold phOf at ht
        injection ht with h1 h2
        exact hcne h1.symm

/-- The marker's opening bracket never occurs in a clean placeholder. -/
theorem lsq_notin_phOf {n : Str} (hn : CleanName n) : '[' ∉ phOf n := by
  intro h
  unfold phOf at h
  rcases List.mem_cons.mp h with h1 | h
  · exact absurd h1 (by decide)
  rcases List.mem_cons.mp h with h1 | h
  · exact absurd h1 (by decide)
  rcases List.mem_append.mp h with h1 | h
  · exact (hn.2 '[' h1).2.2 rfl
  · rcases List.mem_cons.mp h with h1 | h2
    · exact absurd h1 (by decide)
    · rcases List.mem_singleton.mp h2 with h3
      exact absurd h3 (by decide)

/-- A clean placeholder and the missing-value marker are separated. -/
theorem CSI_phOf_marker (n : Str) : CSI (phOf n) markerL := by
  have h : CSI (lbrace :: (lbrace :: (n ++ [rbrace, rbrace]))) markerL :=
    CSI_of_head_notin lbrace (lbrace :: (n ++ [rbrace, rbrace])) markerL (by decide)
  exact h

/-- The missing-value marker and a clean placeholder are separated. -/
theorem CSI_marker_phOf {n : Str} (hn : CleanName n) : CSI markerL (phOf n) := by
  have h : CSI ('[' :: cs ("Not available]")) (phOf n) :=
    CSI_of_head_notin '[' (cs ("Not available]")) (phOf n) (lsq_notin_phOf hn)
  exact h

/-- A placeholder is never the empty string. -/
theorem phOf_ne_nil (n : Str) : phOf n ≠ [] := by
  unfold phOf
  exact List.cons_ne_nil _ _

/-- Unfolding of one variable-substitution step. -/
theorem renderVarsStep_eq (ctx : PromptContext) (content : Str) (v : PromptVariable) :
    renderVarsStep ctx content v =
      if containsL content (phOf v.name) = true then
        replaceAll (phOf v.name) (formatValue (resolveVariable v.name ctx) v.vtype) content
      else content := rfl

/-- One variable-substitution step preserves a marker occurrence. -/
theorem renderVarsStep_marker (ctx : PromptContext) (content : Str) (w : PromptVariable)
    (hcw : CleanName w.name) (h : IsSub markerL content) :
    IsSub markerL (renderVarsStep ctx content w) := by
  rw [renderVarsStep_eq]
  split
  · rcases h with ⟨u, v, hc⟩
    rw [hc]
    rcases replaceAllF_preserve (phOf w.name)
      (formatValue (resolveVariable w.name ctx) w.vtype) markerL
      (CSI_phOf_marker w.name) (CSI_marker_phOf hcw)
      ((u ++ (markerL ++ v)).length + 1) u v with ⟨u2, v2, h2⟩
    exact ⟨u2, v2, h2⟩
  · exact h

/-- One variable-substitution step on an unresolvable variable whose
placeholder occurs introduces the marker. -/
theorem renderVarsStep_introduce (ctx : PromptContext) (content : Str)
    (w : PromptVariable) (hmiss : resolveVariable w.name ctx = none)
    (hocc : IsSub (phOf w.name) content) :
    IsSub markerL (renderVarsStep ctx content w) := by
  rw [renderVarsStep_eq, if_pos ((containsL_iff content (phOf w.name)).mpr hocc)]
  rw [hmiss]
  rw [show formatValue none w.vtype = markerL from rfl]
  rcases hocc with ⟨u, v, hc⟩
  rw [hc]
  rcases replaceAllF_introduce (phOf w.name) markerL (phOf_ne_nil w.name)
    ((u ++ (phOf w.name ++ v)).length + 1) u v (Nat.lt_succ_self _) with ⟨u2, v2, h2⟩
  exact ⟨u2, v2, h2⟩

/-- Through the whole declared-variable pass, an occurrence of the
placeholder of a declared unresolvable clean variable becomes the
marker, and a marker occurrence is never lost. -/
theorem renderVars_fold_marker (ctx : PromptContext) (vName : Str)
    (hmiss : resolveVariable vName ctx = none) :
    ∀ (l : List PromptVariable), (∀ w ∈ l, CleanName w.name) → CleanName vName →
    ∀ content,
      (IsSub markerL content ∨
        ((∃ w ∈ l, w.name = vName) ∧ IsSub (phOf vName) content)) →
      IsSub markerL (l.foldl (renderVarsStep ctx) content) := by
  intro l
  induction l with
  | nil =>
    intro _ _ content hinv
    rcases hinv with h | ⟨⟨w, hw, _⟩, _⟩
    · exact h
    · cases hw
  | cons w rest ih =>
    intro hclean hcleanV content hinv
    have hcw : CleanName w.name := hclean w (List.mem_cons_self w rest)
    apply ih (fun q hq => hclean q (List.mem_cons_of_mem w hq)) hcleanV
    rcases hinv with h | ⟨⟨w0, hw0, hw0n⟩, hph⟩
    · exact Or.inl (renderVarsStep_marker ctx content w hcw h)
    · rcases List.mem_cons.mp hw0 with rfl | hw0r
      · left
        apply renderVarsStep_introduce ctx content w0
        · rw [hw0n]; exact hmiss
        · rw [hw0n]; exact hph
      · by_cases hname : w.name = vName
        · left
          apply renderVarsStep_introduce ctx content w
          · rw [hname]; exact hmiss
          · rw [hname]; exact hph
        · right
          refine ⟨⟨w0, hw0r, hw0n⟩, ?_⟩
          rw [renderVarsStep_eq]
          split
          · rcases hph with ⟨u, v, hc⟩
            rw [hc]
            rcases replaceAllF_preserve (phOf w.name)
              (formatValue (resolveVariable w.name ctx) w.vtype) (phOf vName)
              (CSI_phOf hcw hcleanV hname) (CSI_phOf hcleanV hcw (Ne.symm hname))
              ((u ++ (phOf vName ++ v)).length + 1) u v with ⟨u2, v2, h2⟩
            exact ⟨u2, v2, h2⟩
          · exact hph

/-- A successful case-insensitive literal match splits the source and
draws every consumed character from the pattern up to lower-casing. -/
theorem matchCI_spec : ∀ (p s m r : Str), matchCI p s = some (m, r) →
    s = m ++ r ∧ ∀ c ∈ m, ∃ pc ∈ p, c.toLower = pc := by
  intro p
  induction p with
  | nil =>
    intro s m r h
    simp only [matchCI] at h
    injection h with h1
    injection h1 with h2 h3
    rw [← h2, ← h3]
    exact ⟨rfl, fun c hc => absurd hc (List.not_mem_nil c)⟩
  | cons pc ps ih =>
    intro s m r h
    cases s with
    | nil =>
      simp only [matchCI] at h
      cases h
    | cons c rest =>
      simp only [matchCI] at h
      split at h
      · rename_i hcl
        rcases hx : matchCI ps rest with _ | ⟨m2, r2⟩
        · rw [hx] at h; cases h
        · rw [hx] at h
          injection h with h1
          injection h1 with h2 h3
          obtain ⟨hs, hch⟩ := ih rest m2 r2 hx
          constructor
          · rw [← h2, ← h3, hs]; rfl
          · intro d hd
            rw [← h2] at hd
            rcases List.mem_cons.mp hd with rfl | hd2
            · exact ⟨pc, List.mem_cons_self pc ps, hcl⟩
            · rcases hch d hd2 with ⟨q, hq, hq2⟩
              exact ⟨q, List.mem_cons_of_mem pc hq, hq2⟩
      · cases h

/-- takeIdChars splits its input. -/
theorem takeIdChars_append : ∀ (s : Str), (takeIdChars s).1 ++ (takeIdChars s).2 = s := by
  intro s
  induction s with
  | nil => rfl
  | cons c rest ih =>
    simp only [takeIdChars]
    split
    · simpa using ih
    · rfl

/-- Every captured id character satisfies the id character class. -/
theorem takeIdChars_chars : ∀ (s : Str) (c : Char), c ∈ (takeIdChars s).1 →
    isIdChar c = true := by
  intro s
  induction s with
  | nil => intro c hc; cases hc
  | cons d rest ih =>
    intro c hc
    simp only [takeIdChars] at hc
    split at hc
    · rename_i hd
      rcases List.mem_cons.mp hc with rfl | hc2
      · exact hd
      · exact ih c hc2
    · cases hc

/-- A successful nested-reference match splits the source and never
consumes the marker's opening bracket. -/
theorem tryMatch_spec (prev : List (Str × Str)) (s consumed repl rest : Str)
    (h : tryMatch prev s = some (consumed, repl, rest)) :
    s = consumed ++ rest ∧ '[' ∉ consumed := by
  unfold tryMatch at h
  rcases hmc : matchCI nestedPatLower s with _ | ⟨m1, r1⟩
  · rw [hmc] at h; cases h
  rw [hmc] at h
  simp only [] at h
  rcases htk : takeIdChars r1 with ⟨idp, r2⟩
  rw [htk] at h
  simp only [] at h
  split at h
  · cases h
  split at h
  · rename_i hrb
    injection h with h1
    injection h1 with hcons h2
    injection h2 with hrepl hrest
    obtain ⟨hs1, hch⟩ := matchCI_spec nestedPatLower s m1 r1 hmc
    have happ : idp ++ r2 = r1 := by
      have h3 := takeIdChars_append r1
      rw [htk] at h3
      exact h3
    rcases (isPre_iff [rbrace, rbrace] r2).mp hrb with ⟨t, ht2⟩
    constructor
    · rw [← hcons, ← hrest, hs1, ← happ, ht2]
      simp [List.append_assoc]
    · rw [← hcons]
      intro hmem
      rcases List.mem_append.mp hmem with hmem2 | hmem2
      · rcases List.mem_append.mp hmem2 with hmem3 | hmem3
        · rcases hch '[' hmem3 with ⟨q, hq, hq2⟩
          rw [show ('[').toLower = '[' from by decide] at hq2
          rw [← hq2] at hq
          exact absurd hq (by decide)
        · have h4 := takeIdChars_chars r1 '['
          rw [htk] at h4
          exact absurd (h4 hmem3) (by decide)
      · rcases List.mem_cons.mp hmem2 with h3 | h3
        · exact absurd h3 (by decide)
        · rcases List.mem_singleton.mp h3 with h4
          exact absurd h4 (by decide)
  · cases h

/-- The nested pass fails to match at any character that does not
lower-case to an opening brace. -/
theorem tryMatch_none_head (prev : List (Str × Str)) (c : Char) (w : Str)
    (h : ¬ c.toLower = lbrace) : tryMatch prev (c :: w) = none := by
  unfold tryMatch
  have hmc : matchCI nestedPatLower (c :: w) = none := by
    rw [show nestedPatLower = lbrace :: (lbrace :: cs ("previouscontext.")) from rfl]
    simp only [matchCI]
    rw [if_neg h]
  rw [hmc]

/-- A non-matching step of the nested pass copies a character. -/
theorem applyNestedF_none (prev : List (Str × Str)) (fuel : Nat) (c : Char) (rest : Str)
    (h : tryMatch prev (c :: rest) = none) :
    applyNestedF prev (fuel + 1) (c :: rest) = c :: applyNestedF prev fuel rest := by
  rw [applyNestedF, h]

/-- A matching step of the nested pass emits the stored replacement. -/
theorem applyNestedF_some (prev : List (Str × Str)) (fuel : Nat) (s consumed repl rest : Str)
    (h : tryMatch prev s = some (consumed, repl, rest)) :
    applyNestedF prev (fuel + 1) s = repl ++ applyNestedF prev fuel rest := by
  cases s with
  | nil =>
    rw [show tryMatch prev [] = none from rfl] at h
    cases h
  | cons c r2 => rw [applyNestedF, h]

/-- The nested pass copies through any segment without a character that
lower-cases to an opening brace. -/
theorem applyNested_scanThru (prev : List (Str × Str)) : ∀ (fuel : Nat) (s2 w : Str),
    (∀ c ∈ s2, ¬ c.toLower = lbrace) →
    ∃ x, applyNestedF prev fuel (s2 ++ w) = s2 ++ x := by
  intro fuel
  induction fuel with
  | zero => intro s2 w _; exact ⟨w, rfl⟩
  | succ fuel ih =>
    intro s2 w hch
    cases s2 with
    | nil => exact ⟨applyNestedF prev (fuel + 1) w, rfl⟩
    | cons c s3 =>
      rcases ih s3 w (fun d hd => hch d (List.mem_cons_of_mem c hd)) with ⟨x, hx⟩
      refine ⟨x, ?_⟩
      rw [List.cons_append, applyNestedF_none prev fuel c (s3 ++ w)
        (tryMatch_none_head prev c (s3 ++ w) (hch c (List.mem_cons_self c s3))), hx,
        List.cons_append]

/-- A marker occurrence survives the whole nested pass. -/
theorem applyNestedF_marker (prev : List (Str × Str)) : ∀ (fuel : Nat) (u v : Str),
    ∃ u2 v2, applyNestedF prev fuel (u ++ (markerL ++ v)) = u2 ++ (markerL ++ v2) := by
  intro fuel
  induction fuel with
  | zero => intro u v; exact ⟨u, v, rfl⟩
  | succ fuel ih =>
    intro u v
    cases u with
    | nil =>
      rcases applyNested_scanThru prev (fuel + 1) markerL v (by decide) with ⟨x, hx⟩
      refine ⟨[], x, ?_⟩
      rw [List.nil_append, hx, List.nil_append]
    | cons c u2 =>
      rcases htm : tryMatch prev ((c :: u2) ++ (markerL ++ v)) with _ | ⟨consumed, q⟩
      · rcases ih u2 v with ⟨u3, v3, h3⟩
        refine ⟨c :: u3, v3, ?_⟩
        rw [List.cons_append, applyNestedF_none prev fuel c (u2 ++ (markerL ++ v))
          (by rw [← List.cons_append]; exact htm), h3, List.cons_append]
      · rcases q with ⟨repl, rest⟩
        obtain ⟨hsplit, hnotin⟩ := tryMatch_spec prev _ consumed repl rest htm
        rcases le_or_lt consumed.length (c :: u2).length with hle | hlt
        · rcases pre_of_pre_le consumed (c :: u2) ((c :: u2) ++ (markerL ++ v))
            ⟨rest, hsplit⟩ ⟨markerL ++ v, rfl⟩ hle with ⟨u3, hu3⟩
          have hrest : rest = u3 ++ (markerL ++ v) := by
            have h4 : consumed ++ rest = consumed ++ (u3 ++ (markerL ++ v)) := by
              rw [← hsplit, hu3, List.append_assoc]
            exact List.append_cancel_left h4
          rcases ih u3 v with ⟨u4, v4, h4⟩
          refine ⟨repl ++ u4, v4, ?_⟩
          rw [applyNestedF_some prev fuel _ consumed repl rest htm, hrest, h4,
            List.append_assoc]
        · exfalso
          rcases pre_of_pre_le (c :: u2) consumed ((c :: u2) ++ (markerL ++ v))
            ⟨markerL ++ v, rfl⟩ ⟨rest, hsplit⟩ (Nat.le_of_lt hlt) with ⟨p2, hp2⟩
          have hpt : markerL ++ v = p2 ++ rest := by
            have h5 : (c :: u2) ++ (markerL ++ v) = (c :: u2) ++ (p2 ++ rest) := by
              rw [hsplit, hp2, List.append_assoc]
            exact List.append_cancel_left h5
          cases p2 with
          | nil =>
            rw [List.append_nil] at hp2
            rw [hp2] at hlt
            exact Nat.lt_irrefl _ hlt
          | cons d p3 =>
            have hd : d = '[' := by
              rw [show markerL = '[' :: cs ("Not available]") from rfl,
                List.cons_append, List.cons_append] at hpt
              injection hpt with h1 h2
              exact h1.symm
            apply hnotin
            rw [hp2, hd]
            exact List.mem_append.mpr (Or.inr (List.mem_cons_self '[' p3))

/-- A marker occurrence survives the nested rendering pass. -/
theorem applyNested_marker (prev : List (Str × Str)) (s : Str)
    (h : IsSub markerL s) : IsSub markerL (applyNested prev s) := by
  rcases h with ⟨u, v, hc⟩
  rw [hc]
  rcases applyNestedF_marker prev ((u ++ (markerL ++ v)).length + 1) u v with ⟨u2, v2, h2⟩
  exact ⟨u2, v2, h2⟩

/-- C5 counterexample: rendering the non-empty catalogue template
consisting of the readme placeholder against a context with no file
contents yields the empty string, not the not-available marker, because
resolveVariable maps the special name readme to an or-chain ending in
the empty string rather than to null. -/
theorem renderPrompt_readme_empty :
    (renderPrompt readmePrompt emptyPromptCtx).content = [] ∧
    readmePrompt.template ≠ [] := by
  constructor
  · decide
  · decide

/-- C5 (amended): rendering a template containing the placeholder of a
declared variable that resolveVariable cannot resolve (the null default
branch) produces output containing the literal not-available marker,
provided every declared variable name is brace-free and bracket-free,
as all catalogue names are. -/
theorem renderPrompt_missing_variable_marker
    (p : PromptConfig) (ctx : PromptContext) (vName : Str)
    (hv : ∃ w ∈ p.vars, w.name = vName)
    (hclean : ∀ w ∈ p.vars, CleanName w.name)
    (hmiss : resolveVariable vName ctx = none)
    (hocc : IsSub (phOf vName) p.template) :
    IsSub markerL (renderPrompt p ctx).content := by
  have hcleanV : CleanName vName := by
    rcases hv with ⟨w, hw, hwn⟩
    rw [← hwn]
    exact hclean w hw
  have h1 : IsSub markerL (p.vars.foldl (renderVarsStep ctx) p.template) :=
    renderVars_fold_marker ctx vName hmiss p.vars hclean hcleanV p.template
      (Or.inr ⟨hv, hocc⟩)
  exact applyNested_marker ctx.previousContext _ h1

/-- Witness for the missing-variable marker theorem at a concrete
prompt declaring one unresolvable variable inside literal text. -/
theorem renderPrompt_missing_variable_marker_witness :
    IsSub markerL (renderPrompt witPrompt emptyPromptCtx).content :=
  renderPrompt_missing_variable_marker witPrompt emptyPromptCtx (cs ("unknownVar"))
    (by decide) (by decide) (by decide)
    ⟨cs ("Analyze "), cs (" now"), by decide⟩
